import Mathlib

/-!
blocky: conditional upstream resolver and the REST control surface.

A shallow embedding of

* `resolver/conditionall_upstream_resolver.go`
  (`NewConditionalUpstreamResolver`, `Configuration`, `Resolve`), and
* `api/api_interface_impl.go` (`GetBlockingDisable`, `GetBlockingStatus`,
  `PostQuery`),

together with the properties the specification states about them.  The blocking
controller behind the interface `BlockingControl` is not part of the two files
and is modelled from the specification.

Conventions of the embedding.

* A Go `string` is the list of its characters (`Str`).  The library function
  `strings.ToLower`, which lower-cases every letter of Unicode, is a parameter:
  the field `ToLower` of a `Chain` and an argument of the constructor.
* A Go `map[string]V` is an association list (`GoMap V`); the order of the list
  is the order in which `range` visits the entries, which Go leaves
  unspecified, so statements quantify over every order.
* A Go result `(*Response, error)` is a pair of options (`none` is `nil`).
  Dereferencing a `nil` pointer is the outcome `Outcome.panic`.
* Calls to collaborators (the configured upstreams, the next chain node, the
  blocking controller) are recorded in a trace, so that "invokes", "does not
  invoke" and "exactly once" are statements about that trace.
-/

namespace Blocky

/-! ## Strings -/

/-- A Go string, as the list of its characters. -/
abbrev Str := List Char

/-- Go `strings.Index(s, sep)` for a separator of one character: the position of
the first occurrence of `sep` in `s`, or `-1` when there is none. -/
def Index : Str → Char → Int
  | [], _ => -1
  | c :: cs, sep =>
    if c = sep then 0
    else if Index cs sep < 0 then -1 else Index cs sep + 1

/-- Go `strings.TrimSuffix(s, suffix)` for a suffix of one character. -/
def TrimSuffix (s : Str) (suffix : Char) : Str :=
  if s.getLast? = some suffix then s.dropLast else s

/-- Go `strings.Split(s, sep)` for a separator of one character: cut at the first
separator, keep the part before it, and split what follows; a string without
separator is the single component. -/
def Split : Str → Char → List Str
  | [], _ => [[]]
  | c :: cs, sep =>
    if c = sep then [] :: Split cs sep
    else
      match Split cs sep with
      | [] => [[c]]
      | part :: parts => (c :: part) :: parts

/-! ## Go maps -/

/-- A Go `map[string]V`: its entries, in the order `range` visits them. -/
abbrev GoMap (V : Type) := List (Str × V)

namespace GoMap

variable {V : Type}

/-- The lookup `v, found := m[key]`. -/
def get : GoMap V → Str → Option V
  | [], _ => none
  | (k, v) :: rest, key => if k = key then some v else get rest key

/-- The assignment `m[key] = value`: replaces the value of a key that is
present, adds the entry otherwise. -/
def set : GoMap V → Str → V → GoMap V
  | [], key, value => [(key, value)]
  | (k, v) :: rest, key, value =>
    if k = key then (k, value) :: rest else (k, v) :: set rest key value

/-- The keys of the map. -/
def keys (m : GoMap V) : List Str := m.map Prod.fst

/-- The builtin `len(m)`. -/
def len (m : GoMap V) : Nat := m.length

end GoMap

/-! ## DNS messages, requests and responses -/

/-- A `dns.Question`. -/
structure Question where
  Name : Str
  Qtype : Nat
  Qclass : Nat
  deriving DecidableEq, Repr

/-- A resource record of an answer section. -/
structure RR where
  Name : Str
  Rrtype : Nat
  Ttl : Nat
  Rdata : Str
  deriving DecidableEq, Repr

/-- A `dns.Msg`: the question section, the record set and the result code. -/
structure Msg where
  Question : List Question
  Answer : List RR
  Rcode : Nat
  deriving DecidableEq, Repr

/-- A resolver `Request`: the DNS message `Req` being resolved. -/
structure Request where
  Req : Msg
  deriving DecidableEq, Repr

/-- Modelled from the spec: the `ResponseType` enumeration is declared outside the
two source files; the specification names the tag of the strategy that produced a
response, among them the conditional tag. -/
inductive ResponseType where
  | RESOLVED
  | CACHED
  | BLOCKED
  | CONDITIONAL
  | CUSTOMDNS
  deriving DecidableEq, Repr

/-- Modelled from the spec: the `Response` type is declared outside the two source
files; it is the answer message (record set, result code), the `Reason` string
and the resolver-type tag. -/
structure Response where
  Res : Msg
  Reason : Str
  rType : ResponseType
  deriving DecidableEq, Repr

/-- A Go `error`, by its message. -/
abbrev Err := Str

/-- What a call of `Resolve` ends with: it returns the pair `(*Response, error)`,
or it panics on a nil pointer dereference. -/
inductive Outcome where
  | ret (response : Option Response) (err : Option Err)
  | panic
  deriving DecidableEq, Repr

/-- One call made to a collaborator of the conditional resolver: to a configured
upstream resolver `r`, or to the next node of the chain, with the request passed. -/
inductive Call (ρ : Type) where
  | upstream (r : ρ) (request : Request)
  | next (request : Request)
  deriving DecidableEq, Repr

/-- What a conditional resolver works with: what `Resolve` of each configured
upstream resolver (of type `ρ`) returns, what `Resolve` of the next chain node
returns, how an upstream resolver prints itself (`String()`), and the library
function `strings.ToLower`. -/
structure Chain (ρ : Type) where
  upstream : ρ → Request → Option Response × Option Err
  next : Request → Option Response × Option Err
  describe : ρ → Str
  ToLower : Str → Str

/-- Modelled from the spec: `util.ExtractDomain` is defined outside the two source
files; it gives the queried domain name of a question, lower-cased (by
`strings.ToLower`, the parameter `ToLower`) and without the trailing root dot. -/
def ExtractDomain (ToLower : Str → Str) (question : Question) : Str :=
  TrimSuffix (ToLower question.Name) '.'

/-! ## The conditional upstream resolver -/

/-- The struct `ConditionalUpstreamResolver`: the domain mapping (the next node of
the embedded `NextResolver` is the `next` of the `Chain`). -/
structure ConditionalUpstreamResolver (ρ : Type) where
  mapping : GoMap ρ

/-- The constructor `NewConditionalUpstreamResolver`: ranges over the configured
mapping and assigns `m[strings.ToLower(domain)] = NewUpstreamResolver(upstream)`.
`NewUpstreamResolver`, defined outside the two source files, and the library
function `strings.ToLower` are parameters. -/
def NewConditionalUpstreamResolver {υ ρ : Type} (ToLower : Str → Str)
    (NewUpstreamResolver : υ → ρ) (cfg : GoMap υ) : ConditionalUpstreamResolver ρ :=
  { mapping := cfg.foldl
      (fun m entry => GoMap.set m (ToLower entry.1) (NewUpstreamResolver entry.2)) [] }

/-- The constant string assigned to `response.Reason`. -/
def conditionalReason : Str := "CONDITIONAL".toList

/-- The text of one configuration line, `fmt.Sprintf("%s = \"%s\"", key, val)`. -/
def configLine (key val : Str) : Str := key ++ " = \"".toList ++ val ++ "\"".toList

/-- The method `Configuration`. -/
def Configuration {ρ : Type} (w : Chain ρ) (r : ConditionalUpstreamResolver ρ) : List Str :=
  if GoMap.len r.mapping > 0 then
    r.mapping.map (fun entry => configLine entry.1 (w.describe entry.2))
  else
    ["deactivated".toList]

/-- The statement `if err == nil { response.Reason = "CONDITIONAL"; response.rType =
CONDITIONAL }`; `none` is the nil dereference of a missing response. -/
def annotate (response : Option Response) (err : Option Err) : Option (Option Response) :=
  match err with
  | none =>
    match response with
    | none => none
    | some p => some (some { p with Reason := conditionalReason, rType := ResponseType.CONDITIONAL })
  | some _ => some response

/-- The argument `response.Res.Answer` of the log statement, which is evaluated
whatever the log level; `none` is the nil dereference of a missing response. -/
def loggedAnswer (response : Option Response) : Option (List RR) :=
  match response with
  | none => none
  | some p => some p.Res.Answer

/-- The body of `if found { ... }`: call the upstream found for the domain,
annotate, log, and return. -/
def callConditional {ρ : Type} (w : Chain ρ) (r : ρ) (request : Request) :
    List (Call ρ) × Outcome :=
  let result := w.upstream r request
  ([Call.upstream r request],
    match annotate result.1 result.2 with
    | none => Outcome.panic
    | some response =>
      match loggedAnswer response with
      | none => Outcome.panic
      | some _ => Outcome.ret response result.2)

/-- The final `return r.next.Resolve(request)`. -/
def callNext {ρ : Type} (w : Chain ρ) (request : Request) : List (Call ρ) × Outcome :=
  let result := w.next request
  ([Call.next request], Outcome.ret result.1 result.2)

/-- The inner loop `for len(domain) > 0 { ... }` of `Resolve`, with a bound on the
number of iterations.  The result is `none` when the bound is used up,
`some (some (domain, r))` when the lookup of `domain` finds `r`, and `some none`
when the loop ends (by its condition or by `break`) without a match. -/
def suffixLoop {ρ : Type} (mapping : GoMap ρ) : Nat → Str → Option (Option (Str × ρ))
  | 0, _ => none
  | fuel + 1, domain =>
    if domain.length > 0 then
      match GoMap.get mapping domain with
      | some r => some (some (domain, r))
      | none =>
        if Index domain '.' ≥ 0 then
          suffixLoop mapping fuel (domain.drop (Index domain '.' + 1).toNat)
        else
          some none
    else
      some none

/-- The loop `for _, question := range request.Req.Question { ... }` of `Resolve`
followed by the delegation to the next node.  The inner loop of a domain gets
`len(domain) + 1` iterations. -/
def questionLoop {ρ : Type} (w : Chain ρ) (mapping : GoMap ρ) (request : Request) :
    List Question → Option (List (Call ρ) × Outcome)
  | [] => some (callNext w request)
  | question :: rest =>
    match suffixLoop mapping ((ExtractDomain w.ToLower question).length + 1)
        (ExtractDomain w.ToLower question) with
    | none => none
    | some (some found) => some (callConditional w found.2 request)
    | some none => questionLoop w mapping request rest

/-- The method `Resolve`: the calls it makes to its collaborators, in order, and
its outcome; `none` only if an inner loop used up its iterations. -/
def Resolve {ρ : Type} (w : Chain ρ) (r : ConditionalUpstreamResolver ρ) (request : Request) :
    Option (List (Call ρ) × Outcome) :=
  if GoMap.len r.mapping > 0 then
    questionLoop w r.mapping request request.Req.Question
  else
    some (callNext w request)

/-- A key `k` matches the domain `d`: it is `d` itself or `d` ends with `"." ++ k`. -/
def Matches (d k : Str) : Prop := d = k ∨ ('.' :: k) <:+ d

instance (d k : Str) : Decidable (Matches d k) := by
  unfold Matches; infer_instance

/-! ## The REST control surface -/

/-- A `time.Duration`: a number of nanoseconds. -/
abbrev Duration := Int

/-- The struct `BlockingStatus`. -/
structure BlockingStatus where
  Enabled : Bool
  DisabledGroups : List Str
  AutoEnableInSec : Int
  deriving DecidableEq, Repr

/-- An implementation of the interface `BlockingControl` over a controller state
`σ`: each operation is a function of the state. -/
structure BlockingControl (σ : Type) where
  EnableBlocking : σ → σ
  DisableBlocking : Duration → List Str → σ → Option Err × σ
  BlockingStatus : σ → BlockingStatus

/-- One call made on the `BlockingControl` interface, with its arguments. -/
inductive ControlCall where
  | EnableBlocking
  | DisableBlocking (duration : Duration) (disableGroups : List Str)
  | BlockingStatus
  deriving DecidableEq, Repr

/-- The library functions the handlers use and that are defined outside the two
source files: `time.ParseDuration` (a duration or an error) and
`log.EscapeInput` (the sanitizer of text sent back to the caller). -/
structure Lib where
  ParseDuration : Str → Except Err Duration
  EscapeInput : Str → Str

/-- The query parameters of a disable request; `none` is a parameter that is
absent (a nil pointer). -/
structure GetBlockingDisableParams where
  Duration : Option Str
  Groups : Option Str
  deriving DecidableEq, Repr

/-- The request object of `GetBlockingDisable`. -/
structure GetBlockingDisableRequestObject where
  Params : GetBlockingDisableParams
  deriving DecidableEq, Repr

/-- The response objects of `GetBlockingDisable`: the empty 200 response and the
400 response with a text. -/
inductive GetBlockingDisableResponseObject where
  | GetBlockingDisable200Response
  | GetBlockingDisable400TextResponse (text : Str)
  deriving DecidableEq, Repr

/-- What a handler leaves behind: the returned pair (response object, error), the
state of the controller afterwards, and the calls made on the controller. -/
structure Handled (σ α : Type) where
  response : Option α
  err : Option Err
  state : σ
  calls : List ControlCall

/-- The handler `GetBlockingDisable`, run on the controller state `s`.  A nil
`[]string` is the empty list. -/
def GetBlockingDisable {σ : Type} (lib : Lib) (control : BlockingControl σ) (s : σ)
    (request : GetBlockingDisableRequestObject) :
    Handled σ GetBlockingDisableResponseObject :=
  let parsed : Except Err Duration :=
    match request.Params.Duration with
    | some text => lib.ParseDuration text
    | none => Except.ok 0
  match parsed with
  | Except.error err =>
    { response := some (GetBlockingDisableResponseObject.GetBlockingDisable400TextResponse
        (lib.EscapeInput err)),
      err := none, state := s, calls := [] }
  | Except.ok duration =>
    let groups : List Str :=
      match request.Params.Groups with
      | some text => Split text ','
      | none => []
    let result := control.DisableBlocking duration groups s
    match result.1 with
    | some err =>
      { response := some (GetBlockingDisableResponseObject.GetBlockingDisable400TextResponse
          (lib.EscapeInput err)),
        err := none, state := result.2,
        calls := [ControlCall.DisableBlocking duration groups] }
    | none =>
      { response := some GetBlockingDisableResponseObject.GetBlockingDisable200Response,
        err := none, state := result.2,
        calls := [ControlCall.DisableBlocking duration groups] }

/-- The list `parts` is the list of the comma-separated components of `text`, in
their order in `text`: it is not empty, no component contains a comma, and the
components joined with commas are `text`. -/
def Components (text : Str) (parts : List Str) : Prop :=
  parts ≠ [] ∧ (∀ x ∈ parts, ',' ∉ x) ∧ [','].intercalate parts = text

instance (text : Str) (parts : List Str) : Decidable (Components text parts) := by
  unfold Components; infer_instance

/-- The request object of `GetBlockingStatus`, which has no parameter. -/
structure GetBlockingStatusRequestObject where
  deriving DecidableEq, Repr

/-- The struct `ApiBlockingStatus` of the 200 response: the two optional fields are
pointers, `none` when they are left nil. -/
structure ApiBlockingStatus where
  AutoEnableInSec : Option Int
  DisabledGroups : Option (List Str)
  Enabled : Bool
  deriving DecidableEq, Repr

/-- The response object of `GetBlockingStatus`. -/
inductive GetBlockingStatusResponseObject where
  | GetBlockingStatus200JSONResponse (body : ApiBlockingStatus)
  deriving DecidableEq, Repr

/-- The handler `GetBlockingStatus`, run on the controller state `s`. -/
def GetBlockingStatus {σ : Type} (control : BlockingControl σ) (s : σ)
    (_request : GetBlockingStatusRequestObject) :
    Handled σ GetBlockingStatusResponseObject :=
  let blStatus := control.BlockingStatus s
  let result : ApiBlockingStatus :=
    { Enabled := blStatus.Enabled, AutoEnableInSec := none, DisabledGroups := none }
  let result : ApiBlockingStatus :=
    if blStatus.AutoEnableInSec > 0 then
      { result with AutoEnableInSec := some blStatus.AutoEnableInSec }
    else result
  let result : ApiBlockingStatus :=
    if blStatus.DisabledGroups.length > 0 then
      { result with DisabledGroups := some blStatus.DisabledGroups }
    else result
  { response := some (GetBlockingStatusResponseObject.GetBlockingStatus200JSONResponse result),
    err := none, state := s, calls := [ControlCall.BlockingStatus] }

/-- What `PostQuery` uses and is defined outside the two source files: the tables
`dns.StringToType` and `dns.RcodeToString` (a code that is not in the table has the
empty name), `dns.Fqdn`, `util.AnswerToString`, and the `String()` of a response
type. -/
structure DnsLib where
  StringToType : GoMap Nat
  RcodeToString : Nat → Str
  Fqdn : Str → Str
  AnswerToString : List RR → Str
  RTypeString : ResponseType → Str

/-- The body of a query request; `Type_` is its field `Type`. -/
structure ApiQueryRequest where
  Query : Str
  Type_ : Str
  deriving DecidableEq, Repr

/-- The request object of `PostQuery`. -/
structure PostQueryRequestObject where
  Body : ApiQueryRequest
  deriving DecidableEq, Repr

/-- The struct `ApiQueryResult` of the 200 response. -/
structure ApiQueryResult where
  Reason : Str
  Response : Str
  ResponseType : Str
  ReturnCode : Str
  deriving DecidableEq, Repr

/-- The response objects of `PostQuery`. -/
inductive PostQueryResponseObject where
  | PostQuery200JSONResponse (body : ApiQueryResult)
  | PostQuery400TextResponse (text : Str)
  deriving DecidableEq, Repr

/-- One call made on the `Querier` interface, with its arguments. -/
inductive QuerierCall where
  | Query (question : Str) (qType : Nat)
  deriving DecidableEq, Repr

/-- What a call of `PostQuery` ends with: it returns the pair (response object,
error), or it panics on a nil pointer dereference. -/
inductive PostQueryOutcome where
  | ret (response : Option PostQueryResponseObject) (err : Option Err)
  | panic
  deriving DecidableEq, Repr

/-- The text `fmt.Sprintf("unknown query type '%s'", type)`. -/
def unknownQueryType (type : Str) : Str :=
  "unknown query type ".toList ++ [Char.ofNat 39] ++ type ++ [Char.ofNat 39]

/-- The handler `PostQuery`: the calls it makes on the querier, and its outcome.
`querier` is what `Query` of the querier returns; the field `RType` of the response
is the field `rType` of `Response`. -/
def PostQuery (lib : DnsLib) (querier : Str → Nat → Option Response × Option Err)
    (request : PostQueryRequestObject) : List QuerierCall × PostQueryOutcome :=
  let qType : Nat := (GoMap.get lib.StringToType request.Body.Type_).getD 0
  if qType = 0 then
    ([], PostQueryOutcome.ret
      (some (PostQueryResponseObject.PostQuery400TextResponse
        (unknownQueryType request.Body.Type_))) none)
  else
    let result := querier (lib.Fqdn request.Body.Query) qType
    ([QuerierCall.Query (lib.Fqdn request.Body.Query) qType],
      match result.2 with
      | some err => PostQueryOutcome.ret none (some err)
      | none =>
        match result.1 with
        | none => PostQueryOutcome.panic
        | some resp =>
          PostQueryOutcome.ret
            (some (PostQueryResponseObject.PostQuery200JSONResponse
              { Reason := resp.Reason,
                ResponseType := lib.RTypeString resp.rType,
                Response := lib.AnswerToString resp.Res.Answer,
                ReturnCode := lib.RcodeToString resp.Res.Rcode }))
            none)

/-! ## The blocking controller -/

/-- Modelled from the spec: the `BlockingState` of the controller, which is
implemented outside the two source files.  It is either *Enabled*, or *Disabled*
with an optional deadline (an instant, in nanoseconds) and the exempt groups. -/
inductive BlockingState where
  | Enabled
  | Disabled (deadline : Option Int) (exemptGroups : List Str)
  deriving DecidableEq, Repr

/-- Modelled from the spec: the `BlockingController`, which is implemented outside
the two source files: its state, the instant at which the armed one-shot timer
fires (`none` when no timer is armed), and the current instant. -/
structure BlockingController where
  state : BlockingState
  timer : Option Int
  now : Int
  deriving DecidableEq, Repr

namespace BlockingController

/-- Modelled from the spec: the controller at startup, which is outside the two
source files: created in the *Enabled* state, with no timer. -/
def initial : BlockingController :=
  { state := BlockingState.Enabled, timer := none, now := 0 }

/-- Modelled from the spec: `EnableBlocking()`, implemented outside the two source
files: unconditionally moves to Enabled and cancels any pending auto-re-enable
timer. -/
def EnableBlocking (c : BlockingController) : BlockingController :=
  { c with state := BlockingState.Enabled, timer := none }

/-- Modelled from the spec: `DisableBlocking(duration, groups)`, implemented outside
the two source files: moves to Disabled with the exempt groups `groups`; a positive
duration sets the deadline and arms a one-shot timer for it, in place of any prior
timer; otherwise the disablement has no deadline and no timer. -/
def DisableBlocking (duration : Duration) (groups : List Str) (c : BlockingController) :
    Option Err × BlockingController :=
  if duration > 0 then
    (none, { c with state := BlockingState.Disabled (some (c.now + duration)) groups,
                    timer := some (c.now + duration) })
  else
    (none, { c with state := BlockingState.Disabled none groups, timer := none })

/-- Modelled from the spec: `BlockingStatus()`, implemented outside the two source
files: a pure read; when Disabled, the remaining whole seconds until the deadline
are `deadline - now`, floored, never negative, and zero without deadline. -/
def BlockingStatus (c : BlockingController) : Blocky.BlockingStatus :=
  match c.state with
  | BlockingState.Enabled => { Enabled := true, DisabledGroups := [], AutoEnableInSec := 0 }
  | BlockingState.Disabled none groups =>
    { Enabled := false, DisabledGroups := groups, AutoEnableInSec := 0 }
  | BlockingState.Disabled (some deadline) groups =>
    { Enabled := false, DisabledGroups := groups,
      AutoEnableInSec := (max 0 (deadline - c.now)) / 1000000000 }

/-- Modelled from the spec: the passing of time up to the instant `t`, which is
outside the two source files: the armed timer fires when its instant is reached,
and firing is a call of `EnableBlocking`. -/
def advance (t : Int) (c : BlockingController) : BlockingController :=
  match c.timer with
  | some instant =>
    if instant ≤ t then EnableBlocking { c with now := t } else { c with now := t }
  | none => { c with now := t }

/-- The controller as an implementation of the interface `BlockingControl`. -/
def control : BlockingControl BlockingController :=
  { EnableBlocking := EnableBlocking
    DisableBlocking := DisableBlocking
    BlockingStatus := BlockingStatus }

end BlockingController

/-! ## The inner loop of `Resolve`, with its lookups -/

/-- The inner loop `for len(domain) > 0 { ... }` of `Resolve` as in `suffixLoop`,
together with the list of the domains looked up in the mapping, in order. -/
def suffixLoopLookups {ρ : Type} (mapping : GoMap ρ) :
    Nat → Str → Option (Option (Str × ρ) × List Str)
  | 0, _ => none
  | fuel + 1, domain =>
    if domain.length > 0 then
      match GoMap.get mapping domain with
      | some r => some (some (domain, r), [domain])
      | none =>
        if Index domain '.' ≥ 0 then
          match suffixLoopLookups mapping fuel (domain.drop (Index domain '.' + 1).toNat) with
          | none => none
          | some (found, lookups) => some (found, domain :: lookups)
        else
          some (none, [domain])
    else
      some (none, [])

/-! ## Sample data -/

namespace Sample

/-- A request with one question of type A, class IN, for `name`. -/
def ask (name : String) : Request :=
  { Req := { Question := [{ Name := name.toList, Qtype := 1, Qclass := 1 }],
             Answer := [], Rcode := 0 } }

/-- A request with the given question names, in order. -/
def askAll (names : List String) : Request :=
  { Req := { Question := names.map (fun name => { Name := name.toList, Qtype := 1, Qclass := 1 }),
             Answer := [], Rcode := 0 } }

/-- A response with one A record, as resolver `who` would give it. -/
def answer (who : String) : Response :=
  { Res := { Question := [],
             Answer := [{ Name := "host".toList, Rrtype := 1, Ttl := 300, Rdata := who.toList }],
             Rcode := 0 },
    Reason := ("RESOLVED (" ++ who ++ ")").toList,
    rType := ResponseType.RESOLVED }

/-- A lower-casing for the examples, standing in for `strings.ToLower`: it
lower-cases the ASCII letters, the letter A with diaeresis (196 to 228) and the
Kelvin sign (8490 to `k`), and leaves every other character as it is. -/
def lower (s : Str) : Str :=
  s.map (fun c =>
    if c = Char.ofNat 196 then Char.ofNat 228
    else if c = Char.ofNat 8490 then 'k'
    else c.toLower)

/-- A chain whose upstreams `"A"` and `"B"` answer, whose upstream `"down"` fails
without a response, whose upstream `"servfail"` fails with a response, and whose
next node answers. -/
def chain : Chain String :=
  { upstream := fun r _ =>
      if r = "down" then (none, some "i/o timeout".toList)
      else if r = "servfail" then (some (answer r), some "server failure".toList)
      else (some (answer r), none)
    next := fun _ => (some (answer "next"), none)
    describe := fun r => r.toList
    ToLower := lower }

/-- A chain whose next node fails. -/
def chainNextFails : Chain String :=
  { chain with next := fun _ => (none, some "no upstream".toList) }

/-- The mapping `example.com -> A`, `corp.example.com -> B`. -/
def twoZones : ConditionalUpstreamResolver String :=
  { mapping := [("example.com".toList, "A"), ("corp.example.com".toList, "B")] }

/-- The mapping `example.com -> down`, `example.org -> servfail`. -/
def failing : ConditionalUpstreamResolver String :=
  { mapping := [("example.com".toList, "down"), ("example.org".toList, "servfail")] }

/-- The empty mapping. -/
def noZones : ConditionalUpstreamResolver String :=
  { mapping := [] }

/-- A configuration with two domains that differ only by case. -/
def cfgSameUpToCase : GoMap String :=
  [("Example.com".toList, "A"), ("example.com".toList, "B")]

/-- A configuration with upper-case letters in a domain. -/
def cfgUpper : GoMap String :=
  [("Example.COM".toList, "A"), ("corp.example.com".toList, "B")]

/-- A configuration with the empty domain. -/
def cfgEmptyKey : GoMap String :=
  [("".toList, "A")]

/-- A configuration with two domains that differ only by the case of a letter
outside ASCII, the letter A with diaeresis (196 and 228). -/
def cfgUmlaut : GoMap String :=
  [(Char.ofNat 196 :: ".de".toList, "A"), (Char.ofNat 228 :: ".de".toList, "B")]

/-- The value of a duration unit, in nanoseconds. -/
def unitValue (u : Str) : Option Int :=
  if u = "ns".toList then some 1
  else if u = "us".toList then some 1000
  else if u = "ms".toList then some 1000000
  else if u = "s".toList then some 1000000000
  else if u = "m".toList then some 60000000000
  else if u = "h".toList then some 3600000000000
  else none

/-- A duration parser for the examples, standing in for `time.ParseDuration`.  It
reads `0` and the texts `<digits><unit>` whose value fits 63 bits, and answers
every other text, also those of the other forms the library reads, with the error
`time: invalid duration` followed by the quoted text. -/
def parseDuration (text : Str) : Except Err Duration :=
  let digits := text.takeWhile Char.isDigit
  let value := digits.foldl (fun n c => 10 * n + ((c.toNat : Int) - 48)) 0
  let invalid := "time: invalid duration \"".toList ++ text ++ "\"".toList
  if text = "0".toList then Except.ok 0
  else if digits = [] then Except.error invalid
  else
    match unitValue (text.dropWhile Char.isDigit) with
    | some u => if value * u > 9223372036854775807 then Except.error invalid
                else Except.ok (value * u)
    | none => Except.error invalid

/-- The library of the examples: the sanitizer removes line breaks. -/
def lib : Lib :=
  { ParseDuration := parseDuration
    EscapeInput := fun text => text.filter (fun c => c ≠ '\n' ∧ c ≠ '\r') }

/-- A controller for the examples.  Its state is the current `BlockingStatus`; it
knows the groups `ads` and `kids` and refuses to disable any other group. -/
def control : BlockingControl BlockingStatus :=
  { EnableBlocking := fun _ => { Enabled := true, DisabledGroups := [], AutoEnableInSec := 0 }
    DisableBlocking := fun duration groups s =>
      if groups.all (fun g => g = "ads".toList ∨ g = "kids".toList) then
        (none, { Enabled := false, DisabledGroups := groups,
                 AutoEnableInSec := duration / 1000000000 })
      else
        (some "group is\nunknown".toList, s)
    BlockingStatus := fun s => s }

/-- The state of a controller on which blocking is enabled. -/
def enabled : BlockingStatus :=
  { Enabled := true, DisabledGroups := [], AutoEnableInSec := 0 }

/-- The state of a controller on which the group `ads` is disabled for 90 more
seconds. -/
def adsDisabled : BlockingStatus :=
  { Enabled := false, DisabledGroups := ["ads".toList], AutoEnableInSec := 90 }

/-- The DNS library of the examples, with a part of its type table. -/
def dns : DnsLib :=
  { StringToType :=
      [("None".toList, 0), ("A".toList, 1), ("NS".toList, 2), ("CNAME".toList, 5),
       ("MX".toList, 15), ("TXT".toList, 16), ("AAAA".toList, 28)]
    RcodeToString := fun code =>
      if code = 0 then "NOERROR".toList
      else if code = 2 then "SERVFAIL".toList
      else if code = 3 then "NXDOMAIN".toList
      else []
    Fqdn := fun name => if name.getLast? = some '.' then name else name ++ ['.']
    AnswerToString := fun answer => (answer.map (fun rr => rr.Rdata)).flatten
    RTypeString := fun rType =>
      match rType with
      | ResponseType.RESOLVED => "RESOLVED".toList
      | ResponseType.CACHED => "CACHED".toList
      | ResponseType.BLOCKED => "BLOCKED".toList
      | ResponseType.CONDITIONAL => "CONDITIONAL".toList
      | ResponseType.CUSTOMDNS => "CUSTOMDNS".toList }

/-- A querier for the examples, which answers every query. -/
def querier : Str → Nat → Option Response × Option Err :=
  fun _ _ => (some (answer "upstream"), none)

/-- The mapping `ample.com -> A`, whose key cuts through a label of `example.com`,
together with the empty key. -/
def cutsLabel : ConditionalUpstreamResolver String :=
  { mapping := [("ample.com".toList, "A"), ("".toList, "B")] }

end Sample

/-! ## Strings: facts about `Index` -/

theorem Index_ge (s : Str) (c : Char) : -1 ≤ Index s c := by
  induction s with
  | nil => simp [Index]
  | cons a s ih =>
    unfold Index
    split_ifs <;> omega

theorem not_mem_of_Index_neg (s : Str) (c : Char) (h : Index s c < 0) : c ∉ s := by
  induction s with
  | nil => simp
  | cons a s ih =>
    unfold Index at h
    split_ifs at h with h1 h2
    · omega
    · simp only [List.mem_cons, not_or]
      exact ⟨fun e => h1 e.symm, ih h2⟩
    · have := Index_ge s c
      omega

theorem Index_split (s : Str) (c : Char) (h : 0 ≤ Index s c) :
    ∃ pre, c ∉ pre ∧ s = pre ++ c :: s.drop (Index s c + 1).toNat := by
  induction s with
  | nil => simp [Index] at h
  | cons a s ih =>
    unfold Index at h ⊢
    split_ifs at h ⊢ with h1 h2
    · exact ⟨[], by simp, by simp [h1]⟩
    · omega
    · have h3 : 0 ≤ Index s c := by omega
      obtain ⟨pre, hpre, hs⟩ := ih h3
      refine ⟨a :: pre, ?_, ?_⟩
      · simp only [List.mem_cons, not_or]
        exact ⟨fun e => h1 e.symm, hpre⟩
      · have e : (Index s c + 1 + 1).toNat = (Index s c + 1).toNat + 1 := by omega
        rw [e, List.drop_succ_cons, List.cons_append, ← hs]

/-! ## Matching keys -/

theorem Matches.suffix {d k : Str} (h : Matches d k) : k <:+ d := by
  rcases h with h | h
  · exact h ▸ List.suffix_refl _
  · exact (List.suffix_cons _ _).trans h

theorem Matches.length_le {d k : Str} (h : Matches d k) : k.length ≤ d.length :=
  h.suffix.length_le

/-- Two keys of the same length that match one domain are the same key. -/
theorem Matches.unique {d k k' : Str} (h : Matches d k) (h' : Matches d k')
    (e : k.length = k'.length) : k = k' := by
  obtain ⟨t, ht⟩ := h.suffix
  obtain ⟨t', ht'⟩ := h'.suffix
  have hl : t.length = t'.length := by
    have := congrArg List.length ht
    have := congrArg List.length ht'
    simp only [List.length_append] at *
    omega
  exact (List.append_inj (ht.trans ht'.symm) hl).2

theorem not_matches_nil (k : Str) (hk : k ≠ []) : ¬ Matches [] k := by
  rintro (h | h)
  · exact hk h.symm
  · simp at h

theorem matches_of_no_dot {d k : Str} (hd : '.' ∉ d) (h : Matches d k) : d = k := by
  rcases h with h | h
  · exact h
  · exact absurd (h.subset (List.mem_cons_self _ _)) hd

theorem matches_split {pre rest k : Str} (hpre : '.' ∉ pre) :
    Matches (pre ++ '.' :: rest) k ↔ pre ++ '.' :: rest = k ∨ Matches rest k := by
  constructor
  · rintro (h | ⟨t, ht⟩)
    · exact Or.inl h
    · right
      rcases List.append_eq_append_iff.1 ht with ⟨a, ha, hb⟩ | ⟨a, ha, hb⟩
      · cases a with
        | nil =>
          simp only [List.nil_append, List.cons.injEq, true_and] at hb
          exact Or.inl hb.symm
        | cons x a =>
          simp only [List.cons_append, List.cons.injEq] at hb
          exact absurd (by rw [ha, hb.1]; simp) hpre
      · cases a with
        | nil =>
          simp only [List.nil_append, List.cons.injEq, true_and] at hb
          exact Or.inl hb
        | cons x a =>
          simp only [List.cons_append, List.cons.injEq] at hb
          exact Or.inr ⟨a, by rw [hb.2, hb.1]⟩
  · rintro (h | h | ⟨t, ht⟩)
    · exact Or.inl h
    · exact Or.inr ⟨pre, by rw [h]⟩
    · exact Or.inr ⟨pre ++ '.' :: t, by rw [← ht]; simp⟩

/-! ## Go maps: facts about `get` -/

theorem GoMap.get_ne_none_iff {V : Type} (m : GoMap V) (key : Str) :
    GoMap.get m key ≠ none ↔ key ∈ GoMap.keys m := by
  induction m with
  | nil => simp [GoMap.get, GoMap.keys]
  | cons e m ih =>
    obtain ⟨k, v⟩ := e
    unfold GoMap.get
    by_cases h : k = key
    · subst h
      rw [if_pos rfl]
      exact ⟨fun _ => List.mem_cons_self _ _, fun _ => Option.some_ne_none v⟩
    · rw [if_neg h, ih]
      show key ∈ GoMap.keys m ↔ key ∈ k :: GoMap.keys m
      rw [List.mem_cons]
      constructor
      · exact Or.inr
      · rintro (e | e)
        · exact absurd e.symm h
        · exact e

/-! ## The inner loop: longest matching key -/

/-- Specification of the inner loop.  With more iterations than the domain has
characters the loop ends; it ends with the longest non-empty configured key that
matches the domain, or without a match when no non-empty configured key matches. -/
theorem suffixLoop_spec {ρ : Type} (mapping : GoMap ρ) :
    ∀ (fuel : Nat) (d : Str), d.length < fuel →
      (∃ k u, suffixLoop mapping fuel d = some (some (k, u)) ∧ k ≠ [] ∧
          GoMap.get mapping k = some u ∧ Matches d k ∧
          ∀ k', k' ≠ [] → Matches d k' → GoMap.get mapping k' ≠ none →
            k'.length ≤ k.length) ∨
      (suffixLoop mapping fuel d = some none ∧
          ∀ k', k' ≠ [] → Matches d k' → GoMap.get mapping k' = none) := by
  intro fuel
  induction fuel with
  | zero => intro d h; omega
  | succ fuel ih =>
    intro d hlen
    unfold suffixLoop
    by_cases hd : d.length > 0
    · rw [if_pos hd]
      cases hget : GoMap.get mapping d with
      | some u =>
        left
        refine ⟨d, u, rfl, ?_, hget, Or.inl rfl, fun k' _ hm _ => hm.length_le⟩
        intro e
        simp [e] at hd
      | none =>
        by_cases hi : Index d '.' ≥ 0
        · rw [if_pos hi]
          obtain ⟨pre, hpre, hsplit⟩ := Index_split d '.' hi
          generalize d.drop (Index d '.' + 1).toNat = rest at hsplit ⊢
          subst hsplit
          have hrest : rest.length < fuel := by
            simp only [List.length_append, List.length_cons] at hlen
            omega
          rcases ih rest hrest with ⟨k, u, hrun, hk, hku, hm, hlong⟩ | ⟨hrun, hnone⟩
          · left
            refine ⟨k, u, hrun, hk, hku, (matches_split hpre).2 (Or.inr hm), ?_⟩
            intro k' hk' hm' hcfg
            rcases (matches_split hpre).1 hm' with e | hm''
            · exact absurd (e ▸ hget) hcfg
            · exact hlong k' hk' hm'' hcfg
          · right
            refine ⟨hrun, ?_⟩
            intro k' hk' hm'
            rcases (matches_split hpre).1 hm' with e | hm''
            · exact e ▸ hget
            · exact hnone k' hk' hm''
        · rw [if_neg hi]
          right
          refine ⟨rfl, ?_⟩
          intro k' _ hm'
          have hdot : '.' ∉ d := not_mem_of_Index_neg d '.' (by omega)
          exact matches_of_no_dot hdot hm' ▸ hget
    · rw [if_neg hd]
      right
      refine ⟨rfl, ?_⟩
      intro k' hk' hm'
      have : d = [] := List.length_eq_zero.1 (by omega)
      subst this
      exact absurd hm' (not_matches_nil k' hk')

/-! ## `Resolve`: the question loop -/

theorem keys_ne_nil_of_get {ρ : Type} {mapping : GoMap ρ} {k : Str} {u : ρ}
    (h : GoMap.get mapping k = some u) : GoMap.len mapping > 0 := by
  cases mapping with
  | nil => simp [GoMap.get] at h
  | cons e m => simp [GoMap.len]

theorem questionLoop_cons {ρ : Type} (w : Chain ρ) (mapping : GoMap ρ) (request : Request)
    (question : Question) (rest : List Question) :
    questionLoop w mapping request (question :: rest) =
      match suffixLoop mapping ((ExtractDomain w.ToLower question).length + 1)
          (ExtractDomain w.ToLower question) with
      | none => none
      | some (some found) => some (callConditional w found.2 request)
      | some none => questionLoop w mapping request rest := rfl

/-- Questions none of whose domains matches a non-empty configured key are passed
over by the question loop. -/
theorem questionLoop_skip {ρ : Type} (w : Chain ρ) (mapping : GoMap ρ) (request : Request)
    (pre rest : List Question)
    (hpre : ∀ q ∈ pre, ∀ k ∈ GoMap.keys mapping, k ≠ [] → ¬ Matches (ExtractDomain w.ToLower q) k) :
    questionLoop w mapping request (pre ++ rest) = questionLoop w mapping request rest := by
  induction pre with
  | nil => rfl
  | cons q pre ih =>
    have hq := hpre q (List.mem_cons_self _ _)
    have htail : ∀ q' ∈ pre, ∀ k ∈ GoMap.keys mapping, k ≠ [] →
        ¬ Matches (ExtractDomain w.ToLower q') k :=
      fun q' hq' => hpre q' (List.mem_cons_of_mem _ hq')
    rw [List.cons_append, questionLoop_cons]
    rcases suffixLoop_spec mapping ((ExtractDomain w.ToLower q).length + 1) (ExtractDomain w.ToLower q)
        (Nat.lt_succ_self _) with ⟨k, u, _, hk, hku, hm, _⟩ | ⟨hrun, _⟩
    · have hmem : k ∈ GoMap.keys mapping :=
        (GoMap.get_ne_none_iff mapping k).1 (by rw [hku]; exact Option.some_ne_none u)
      exact absurd hm (hq k hmem hk)
    · rw [hrun]
      exact ih htail

/-- A question whose domain has the longest non-empty matching key `k`, mapped to
`u`, ends the question loop with the call of `u`. -/
theorem questionLoop_hit {ρ : Type} (w : Chain ρ) (mapping : GoMap ρ) (request : Request)
    (question : Question) (post : List Question) (k : Str) (u : ρ)
    (hget : GoMap.get mapping k = some u) (hk : k ≠ [])
    (hm : Matches (ExtractDomain w.ToLower question) k)
    (hlong : ∀ k' ∈ GoMap.keys mapping, k' ≠ [] → Matches (ExtractDomain w.ToLower question) k' →
      k'.length ≤ k.length) :
    questionLoop w mapping request (question :: post) = some (callConditional w u request) := by
  rw [questionLoop_cons]
  rcases suffixLoop_spec mapping ((ExtractDomain w.ToLower question).length + 1) (ExtractDomain w.ToLower question)
      (Nat.lt_succ_self _) with ⟨k0, u0, hrun, hk0, hku0, hm0, hlong0⟩ | ⟨_, hnone⟩
  · have hmem0 : k0 ∈ GoMap.keys mapping :=
      (GoMap.get_ne_none_iff mapping k0).1 (by rw [hku0]; exact Option.some_ne_none u0)
    have h1 : k0.length ≤ k.length := hlong k0 hmem0 hk0 hm0
    have h2 : k.length ≤ k0.length :=
      hlong0 k hk hm (by rw [hget]; exact Option.some_ne_none u)
    have hkk : k0 = k := Matches.unique hm0 hm (Nat.le_antisymm h1 h2)
    subst hkk
    have huu : u0 = u := Option.some.inj (hku0.symm.trans hget)
    subst huu
    rw [hrun]
  · have := hnone k hk hm
    rw [hget] at this
    exact absurd this (Option.some_ne_none u)

/-- Among the non-empty configured keys that match a domain, when there is one,
there is a longest, and every other one is strictly shorter. -/
theorem exists_longest_match {ρ : Type} (mapping : GoMap ρ) (d : Str)
    (hex : ∃ k ∈ GoMap.keys mapping, k ≠ [] ∧ Matches d k) :
    ∃ k u, GoMap.get mapping k = some u ∧ k ≠ [] ∧ Matches d k ∧
      (∀ k' ∈ GoMap.keys mapping, k' ≠ [] → Matches d k' → k'.length ≤ k.length) ∧
      (∀ k' ∈ GoMap.keys mapping, k' ≠ [] → Matches d k' → k' ≠ k → k'.length < k.length) := by
  obtain ⟨k1, hmem1, hk1, hm1⟩ := hex
  rcases suffixLoop_spec mapping (d.length + 1) d (Nat.lt_succ_self _) with
    ⟨k, u, _, hk, hku, hm, hlong⟩ | ⟨_, hnone⟩
  · have hle : ∀ k' ∈ GoMap.keys mapping, k' ≠ [] → Matches d k' → k'.length ≤ k.length :=
      fun k' hmem' hk' hm' => hlong k' hk' hm' ((GoMap.get_ne_none_iff mapping k').2 hmem')
    refine ⟨k, u, hku, hk, hm, hle, ?_⟩
    intro k' hmem' hk' hm' hne
    rcases Nat.lt_or_ge k'.length k.length with h | h
    · exact h
    · exact absurd (Matches.unique hm' hm (Nat.le_antisymm (hle k' hmem' hk' hm') h)) hne
  · exact absurd (hnone k1 hk1 hm1) ((GoMap.get_ne_none_iff mapping k1).2 hmem1)

/-- The core of `Resolve`: when the questions before `question` match no key and
`k`, mapped to `u`, is the longest non-empty key matching `question`, `Resolve`
is the call of `u`, whatever the questions after `question`. -/
theorem Resolve_core {ρ : Type} (w : Chain ρ) (r : ConditionalUpstreamResolver ρ)
    (request : Request) (pre post : List Question) (question : Question) (k : Str) (u : ρ)
    (hq : request.Req.Question = pre ++ question :: post)
    (hpre : ∀ q ∈ pre, ∀ k ∈ GoMap.keys r.mapping, k ≠ [] → ¬ Matches (ExtractDomain w.ToLower q) k)
    (hget : GoMap.get r.mapping k = some u) (hk : k ≠ [])
    (hm : Matches (ExtractDomain w.ToLower question) k)
    (hlong : ∀ k' ∈ GoMap.keys r.mapping, k' ≠ [] → Matches (ExtractDomain w.ToLower question) k' →
      k'.length ≤ k.length) :
    Resolve w r request = some (callConditional w u request) := by
  unfold Resolve
  rw [if_pos (keys_ne_nil_of_get hget), hq, questionLoop_skip w r.mapping request pre _ hpre]
  exact questionLoop_hit w r.mapping request question post k u hget hk hm hlong

/-- The core of the delegation: when no question matches a non-empty configured
key, `Resolve` is the call of the next node. -/
theorem Resolve_delegates {ρ : Type} (w : Chain ρ) (r : ConditionalUpstreamResolver ρ)
    (request : Request)
    (h : ∀ q ∈ request.Req.Question, ∀ k ∈ GoMap.keys r.mapping, k ≠ [] →
      ¬ Matches (ExtractDomain w.ToLower q) k) :
    Resolve w r request = some (callNext w request) := by
  unfold Resolve
  split_ifs
  · have := questionLoop_skip w r.mapping request request.Req.Question [] h
    rw [List.append_nil] at this
    rw [this]
    rfl
  · rfl

/-! ## `Resolve`: the properties of the specification -/

/-- C1: for a request with a single question whose extracted domain `d` is matched by
at least one non-empty configured key (`d = k` or `d` ends with `"." ++ k`), there
is a longest such key `k` (every other one is strictly shorter), and `Resolve`
makes exactly one call, to the upstream mapped to `k`: no other upstream and not
the next node. -/
theorem Resolve_most_specific_suffix {ρ : Type} (w : Chain ρ)
    (r : ConditionalUpstreamResolver ρ) (request : Request) (question : Question)
    (hq : request.Req.Question = [question])
    (hex : ∃ k ∈ GoMap.keys r.mapping, k ≠ [] ∧ Matches (ExtractDomain w.ToLower question) k) :
    ∃ k u, GoMap.get r.mapping k = some u ∧ k ≠ [] ∧ Matches (ExtractDomain w.ToLower question) k ∧
      (∀ k' ∈ GoMap.keys r.mapping, k' ≠ [] → Matches (ExtractDomain w.ToLower question) k' → k' ≠ k →
        k'.length < k.length) ∧
      (Resolve w r request).map Prod.fst = some [Call.upstream u request] := by
  obtain ⟨k, u, hget, hk, hm, hle, hlt⟩ :=
    exists_longest_match r.mapping (ExtractDomain w.ToLower question) hex
  refine ⟨k, u, hget, hk, hm, hlt, ?_⟩
  rw [Resolve_core w r request [] [] question k u hq (by simp) hget hk hm hle]
  rfl

/-- C1, scenario: with `example.com -> A` and `corp.example.com -> B`, the query
for `mail.corp.example.com` calls `B` only. -/
theorem Resolve_most_specific_suffix_witness :
    (∃ k ∈ GoMap.keys Sample.twoZones.mapping, k ≠ [] ∧
        Matches (ExtractDomain Sample.chain.ToLower ⟨"mail.corp.example.com.".toList, 1, 1⟩) k) ∧
      (∃ k u, GoMap.get Sample.twoZones.mapping k = some u ∧ k ≠ [] ∧
        Matches (ExtractDomain Sample.chain.ToLower ⟨"mail.corp.example.com.".toList, 1, 1⟩) k ∧
        (∀ k' ∈ GoMap.keys Sample.twoZones.mapping, k' ≠ [] →
          Matches (ExtractDomain Sample.chain.ToLower ⟨"mail.corp.example.com.".toList, 1, 1⟩) k' → k' ≠ k →
          k'.length < k.length) ∧
        (Resolve Sample.chain Sample.twoZones (Sample.ask "mail.corp.example.com.")).map
          Prod.fst = some [Call.upstream u (Sample.ask "mail.corp.example.com.")]) ∧
      (Resolve Sample.chain Sample.twoZones (Sample.ask "mail.corp.example.com.")).map
          Prod.fst = some [Call.upstream "B" (Sample.ask "mail.corp.example.com.")] :=
  have hex : ∃ k ∈ GoMap.keys Sample.twoZones.mapping, k ≠ [] ∧
      Matches (ExtractDomain Sample.chain.ToLower ⟨"mail.corp.example.com.".toList, 1, 1⟩) k :=
    ⟨"example.com".toList, by decide, by decide, by decide⟩
  ⟨hex,
    Resolve_most_specific_suffix Sample.chain Sample.twoZones
      (Sample.ask "mail.corp.example.com.") ⟨"mail.corp.example.com.".toList, 1, 1⟩ rfl hex,
    by decide⟩

/-- C3: when no question of the request matches a configured key (no non-empty key
`k` with `d = k` or `d` ending with `"." ++ k`, for `d` the extracted domain of any
question), `Resolve` makes exactly one call, to the next node with the request
itself, and returns exactly the pair (response, error) that call returned, error
included; no configured upstream is called. -/
theorem Resolve_unmatched_delegates {ρ : Type} (w : Chain ρ)
    (r : ConditionalUpstreamResolver ρ) (request : Request)
    (h : ∀ q ∈ request.Req.Question, ∀ k ∈ GoMap.keys r.mapping, k ≠ [] →
      ¬ Matches (ExtractDomain w.ToLower q) k) :
    Resolve w r request =
      some ([Call.next request], Outcome.ret (w.next request).1 (w.next request).2) :=
  Resolve_delegates w r request h

/-- C3, scenario: `example.net` matches neither zone; the next node fails without a
response, and that failure is what `Resolve` returns. -/
theorem Resolve_unmatched_delegates_witness :
    (∀ q ∈ (Sample.ask "www.example.net.").Req.Question,
        ∀ k ∈ GoMap.keys Sample.twoZones.mapping, k ≠ [] → ¬ Matches (ExtractDomain Sample.chainNextFails.ToLower q) k) ∧
      Resolve Sample.chainNextFails Sample.twoZones (Sample.ask "www.example.net.") =
        some ([Call.next (Sample.ask "www.example.net.")],
          Outcome.ret none (some "no upstream".toList)) :=
  ⟨by decide,
    Resolve_unmatched_delegates Sample.chainNextFails Sample.twoZones
      (Sample.ask "www.example.net.") (by decide)⟩

/-- C4, as the code behaves: when the upstream of the first matching question
returns an error and no response object, `Resolve` calls that upstream once, does
not call the next node, and then does not return the error: it panics on the nil
response, whose `Res.Answer` the log statement reads before the `return`. -/
theorem Resolve_upstream_error_without_response_panics {ρ : Type} (w : Chain ρ)
    (r : ConditionalUpstreamResolver ρ) (request : Request) (pre post : List Question)
    (question : Question) (k : Str) (u : ρ) (e : Err)
    (hq : request.Req.Question = pre ++ question :: post)
    (hpre : ∀ q ∈ pre, ∀ k ∈ GoMap.keys r.mapping, k ≠ [] → ¬ Matches (ExtractDomain w.ToLower q) k)
    (hget : GoMap.get r.mapping k = some u) (hk : k ≠ [])
    (hm : Matches (ExtractDomain w.ToLower question) k)
    (hlong : ∀ k' ∈ GoMap.keys r.mapping, k' ≠ [] → Matches (ExtractDomain w.ToLower question) k' →
      k'.length ≤ k.length)
    (herr : w.upstream u request = (none, some e)) :
    Resolve w r request = some ([Call.upstream u request], Outcome.panic) := by
  rw [Resolve_core w r request pre post question k u hq hpre hget hk hm hlong]
  simp [callConditional, herr, annotate, loggedAnswer]

/-- C4, failing input: `example.com -> down`, where `down` fails with
`i/o timeout` and no response; the query for `example.com` panics. -/
theorem Resolve_upstream_error_without_response_panics_witness :
    Resolve Sample.chain Sample.failing (Sample.ask "example.com.") =
      some ([Call.upstream "down" (Sample.ask "example.com.")], Outcome.panic) :=
  Resolve_upstream_error_without_response_panics Sample.chain Sample.failing
    (Sample.ask "example.com.") [] [] ⟨"example.com.".toList, 1, 1⟩ "example.com".toList
    "down" "i/o timeout".toList rfl (by decide) (by decide) (by decide) (by decide)
    (by decide) (by decide)

/-- When the upstream of the first matching question returns an error together with
a response object, `Resolve` calls that upstream once, does not call the next
node, and returns that response, unchanged, with that error. -/
theorem Resolve_upstream_error_with_response {ρ : Type} (w : Chain ρ)
    (r : ConditionalUpstreamResolver ρ) (request : Request) (pre post : List Question)
    (question : Question) (k : Str) (u : ρ) (p : Response) (e : Err)
    (hq : request.Req.Question = pre ++ question :: post)
    (hpre : ∀ q ∈ pre, ∀ k ∈ GoMap.keys r.mapping, k ≠ [] → ¬ Matches (ExtractDomain w.ToLower q) k)
    (hget : GoMap.get r.mapping k = some u) (hk : k ≠ [])
    (hm : Matches (ExtractDomain w.ToLower question) k)
    (hlong : ∀ k' ∈ GoMap.keys r.mapping, k' ≠ [] → Matches (ExtractDomain w.ToLower question) k' →
      k'.length ≤ k.length)
    (herr : w.upstream u request = (some p, some e)) :
    Resolve w r request = some ([Call.upstream u request], Outcome.ret (some p) (some e)) := by
  rw [Resolve_core w r request pre post question k u hq hpre hget hk hm hlong]
  simp [callConditional, herr, annotate, loggedAnswer]

/-- C5: a resolver whose mapping has no entries is a pure pass-through:
`Configuration()` is exactly the one-element list `["deactivated"]`, and for every
request `Resolve` makes exactly one call, to the next node with the request
itself, and returns exactly what that call returned. -/
theorem empty_mapping_pass_through {ρ : Type} (w : Chain ρ)
    (r : ConditionalUpstreamResolver ρ) (request : Request)
    (h : GoMap.len r.mapping = 0) :
    Configuration w r = ["deactivated".toList] ∧
      Resolve w r request =
        some ([Call.next request], Outcome.ret (w.next request).1 (w.next request).2) := by
  constructor
  · unfold Configuration
    rw [if_neg (by omega)]
  · unfold Resolve
    rw [if_neg (by omega)]
    rfl

/-- C5, scenario: the empty mapping. -/
theorem empty_mapping_pass_through_witness :
    GoMap.len Sample.noZones.mapping = 0 ∧
      Configuration Sample.chain Sample.noZones = ["deactivated".toList] ∧
      Resolve Sample.chain Sample.noZones (Sample.ask "example.com.") =
        some ([Call.next (Sample.ask "example.com.")],
          Outcome.ret (Sample.chain.next (Sample.ask "example.com.")).1
            (Sample.chain.next (Sample.ask "example.com.")).2) :=
  ⟨rfl, empty_mapping_pass_through Sample.chain Sample.noZones (Sample.ask "example.com.") rfl⟩

/-- C6: when the questions before `question` match no configured key and
`question` is matched by some non-empty configured key, then, whatever the
questions after it (`post`), `Resolve` makes exactly one call, to the upstream
mapped to the longest non-empty key matching `question` (every other matching key
is strictly shorter), and its outcome is the one of that call: the later
questions select nothing. -/
theorem Resolve_first_matching_question {ρ : Type} (w : Chain ρ)
    (r : ConditionalUpstreamResolver ρ) (request : Request) (pre post : List Question)
    (question : Question)
    (hq : request.Req.Question = pre ++ question :: post)
    (hpre : ∀ q ∈ pre, ∀ k ∈ GoMap.keys r.mapping, k ≠ [] → ¬ Matches (ExtractDomain w.ToLower q) k)
    (hex : ∃ k ∈ GoMap.keys r.mapping, k ≠ [] ∧ Matches (ExtractDomain w.ToLower question) k) :
    ∃ k u, GoMap.get r.mapping k = some u ∧ k ≠ [] ∧ Matches (ExtractDomain w.ToLower question) k ∧
      (∀ k' ∈ GoMap.keys r.mapping, k' ≠ [] → Matches (ExtractDomain w.ToLower question) k' → k' ≠ k →
        k'.length < k.length) ∧
      (Resolve w r request).map Prod.fst = some [Call.upstream u request] ∧
      (Resolve w r request).map Prod.snd = some (callConditional w u request).2 := by
  obtain ⟨k, u, hget, hk, hm, hle, hlt⟩ :=
    exists_longest_match r.mapping (ExtractDomain w.ToLower question) hex
  refine ⟨k, u, hget, hk, hm, hlt, ?_, ?_⟩
  · rw [Resolve_core w r request pre post question k u hq hpre hget hk hm hle]
    rfl
  · rw [Resolve_core w r request pre post question k u hq hpre hget hk hm hle]
    rfl

/-- C6, scenario: the questions `example.net`, `www.example.com`,
`corp.example.com` against `example.com -> A`, `corp.example.com -> B`: the first
matching question is the second one, and `A` is the only call, although the third
question would select `B`. -/
theorem Resolve_first_matching_question_witness :
    (∃ k u, GoMap.get Sample.twoZones.mapping k = some u ∧ k ≠ [] ∧
        Matches (ExtractDomain Sample.chain.ToLower ⟨"www.example.com.".toList, 1, 1⟩) k ∧
        (∀ k' ∈ GoMap.keys Sample.twoZones.mapping, k' ≠ [] →
          Matches (ExtractDomain Sample.chain.ToLower ⟨"www.example.com.".toList, 1, 1⟩) k' → k' ≠ k →
          k'.length < k.length) ∧
        (Resolve Sample.chain Sample.twoZones
          (Sample.askAll ["example.net.", "www.example.com.", "corp.example.com."])).map
            Prod.fst = some [Call.upstream u
              (Sample.askAll ["example.net.", "www.example.com.", "corp.example.com."])] ∧
        (Resolve Sample.chain Sample.twoZones
          (Sample.askAll ["example.net.", "www.example.com.", "corp.example.com."])).map
            Prod.snd = some (callConditional Sample.chain u
              (Sample.askAll ["example.net.", "www.example.com.", "corp.example.com."])).2) ∧
      (Resolve Sample.chain Sample.twoZones
          (Sample.askAll ["example.net.", "www.example.com.", "corp.example.com."])).map
            Prod.fst = some [Call.upstream "A"
              (Sample.askAll ["example.net.", "www.example.com.", "corp.example.com."])] :=
  ⟨Resolve_first_matching_question Sample.chain Sample.twoZones
      (Sample.askAll ["example.net.", "www.example.com.", "corp.example.com."])
      [⟨"example.net.".toList, 1, 1⟩] [⟨"corp.example.com.".toList, 1, 1⟩]
      ⟨"www.example.com.".toList, 1, 1⟩ rfl (by decide)
      ⟨"example.com".toList, by decide, by decide, by decide⟩,
    by decide⟩

/-- C7: when the upstream selected for the first matching question returns the
response `p` without error, `Resolve` returns, without error, the response with
`Reason = "CONDITIONAL"`, `rType = CONDITIONAL` and the answer message `Res` of
`p`, unchanged: only the two annotation fields differ from `p`. -/
theorem Resolve_success_changes_annotations_only {ρ : Type} (w : Chain ρ)
    (r : ConditionalUpstreamResolver ρ) (request : Request) (pre post : List Question)
    (question : Question) (k : Str) (u : ρ) (p : Response)
    (hq : request.Req.Question = pre ++ question :: post)
    (hpre : ∀ q ∈ pre, ∀ k ∈ GoMap.keys r.mapping, k ≠ [] → ¬ Matches (ExtractDomain w.ToLower q) k)
    (hget : GoMap.get r.mapping k = some u) (hk : k ≠ [])
    (hm : Matches (ExtractDomain w.ToLower question) k)
    (hlong : ∀ k' ∈ GoMap.keys r.mapping, k' ≠ [] → Matches (ExtractDomain w.ToLower question) k' →
      k'.length ≤ k.length)
    (hok : w.upstream u request = (some p, none)) :
    Resolve w r request =
      some ([Call.upstream u request],
        Outcome.ret
          (some { Res := p.Res, Reason := "CONDITIONAL".toList,
                  rType := ResponseType.CONDITIONAL })
          none) := by
  rw [Resolve_core w r request pre post question k u hq hpre hget hk hm hlong]
  simp [callConditional, hok, annotate, loggedAnswer, conditionalReason]

/-- C7, scenario: `B` answers `mail.corp.example.com` with one A record and the
reason `RESOLVED (B)`; `Resolve` returns that record set and result code with the
conditional annotations. -/
theorem Resolve_success_changes_annotations_only_witness :
    Resolve Sample.chain Sample.twoZones (Sample.ask "mail.corp.example.com.") =
      some ([Call.upstream "B" (Sample.ask "mail.corp.example.com.")],
        Outcome.ret
          (some { Res := (Sample.answer "B").Res, Reason := "CONDITIONAL".toList,
                  rType := ResponseType.CONDITIONAL })
          none) :=
  Resolve_success_changes_annotations_only Sample.chain Sample.twoZones
    (Sample.ask "mail.corp.example.com.") [] [] ⟨"mail.corp.example.com.".toList, 1, 1⟩
    "corp.example.com".toList "B" (Sample.answer "B") rfl (by decide) (by decide) (by decide)
    (by decide) (by decide) (by decide)

/-! ## Go maps: assignment, and the map the constructor builds -/

theorem GoMap.get_cons {V : Type} (k key : Str) (v : V) (rest : GoMap V) :
    GoMap.get ((k, v) :: rest) key = if k = key then some v else GoMap.get rest key := rfl

theorem GoMap.keys_cons {V : Type} (k : Str) (v : V) (rest : GoMap V) :
    GoMap.keys ((k, v) :: rest) = k :: GoMap.keys rest := rfl

theorem GoMap.get_set {V : Type} (m : GoMap V) (k key : Str) (v : V) :
    GoMap.get (GoMap.set m k v) key = if k = key then some v else GoMap.get m key := by
  induction m with
  | nil =>
    show GoMap.get [(k, v)] key = _
    rw [GoMap.get_cons]
  | cons e m ih =>
    obtain ⟨k0, v0⟩ := e
    unfold GoMap.set
    by_cases h : k0 = k
    · subst h
      rw [if_pos rfl, GoMap.get_cons, GoMap.get_cons]
      by_cases h2 : k0 = key
      · rw [if_pos h2, if_pos h2]
      · rw [if_neg h2, if_neg h2, if_neg h2]
    · rw [if_neg h, GoMap.get_cons, GoMap.get_cons, ih]
      by_cases h2 : k0 = key
      · have h3 : ¬ k = key := fun e => h (h2.trans e.symm)
        simp only [if_pos h2, if_neg h3]
      · simp only [if_neg h2]

theorem GoMap.keys_set {V : Type} (m : GoMap V) (k : Str) (v : V) :
    GoMap.keys (GoMap.set m k v) =
      if k ∈ GoMap.keys m then GoMap.keys m else GoMap.keys m ++ [k] := by
  induction m with
  | nil =>
    show [k] = if k ∈ ([] : List Str) then [] else [] ++ [k]
    rw [if_neg (List.not_mem_nil k)]
    rfl
  | cons e m ih =>
    obtain ⟨k0, v0⟩ := e
    unfold GoMap.set
    by_cases h : k0 = k
    · subst h
      rw [if_pos rfl, GoMap.keys_cons, GoMap.keys_cons, if_pos (List.mem_cons_self _ _)]
    · rw [if_neg h, GoMap.keys_cons, GoMap.keys_cons, ih]
      have hne : k ≠ k0 := fun e => h e.symm
      by_cases h2 : k ∈ GoMap.keys m
      · rw [if_pos h2, if_pos (List.mem_cons_of_mem _ h2)]
      · have h3 : k ∉ k0 :: GoMap.keys m := by
          rw [List.mem_cons, not_or]
          exact ⟨hne, h2⟩
        rw [if_neg h2, if_neg h3]
        rfl

/-- What `range cfg.Mapping` builds from the map `acc`. -/
theorem build_cons {υ ρ : Type} (lower : Str → Str) (New : υ → ρ) (acc : GoMap ρ)
    (e : Str × υ) (cfg : GoMap υ) :
    List.foldl (fun m entry => GoMap.set m (lower entry.1) (New entry.2)) acc (e :: cfg) =
      List.foldl (fun m entry => GoMap.set m (lower entry.1) (New entry.2))
        (GoMap.set acc (lower e.1) (New e.2)) cfg := rfl

theorem get_build_of_not_mem {υ ρ : Type} (lower : Str → Str) (New : υ → ρ) (cfg : GoMap υ) :
    ∀ (acc : GoMap ρ) (key : Str), (∀ e ∈ cfg, lower e.1 ≠ key) →
      GoMap.get (List.foldl (fun m entry => GoMap.set m (lower entry.1) (New entry.2))
        acc cfg) key = GoMap.get acc key := by
  induction cfg with
  | nil => intro acc key _; rfl
  | cons e cfg ih =>
    intro acc key h
    rw [build_cons, ih _ key (fun e' he' => h e' (List.mem_cons_of_mem _ he')), GoMap.get_set,
      if_neg (h e (List.mem_cons_self _ _))]

/-- The entry that `range` visits last among those with one lower-cased domain is
the one whose upstream the built map holds under that lower-cased domain. -/
theorem get_build_last {υ ρ : Type} (lower : Str → Str) (New : υ → ρ) (acc : GoMap ρ)
    (before after : GoMap υ) (e : Str × υ)
    (hafter : ∀ e' ∈ after, lower e'.1 ≠ lower e.1) :
    GoMap.get (List.foldl (fun m entry => GoMap.set m (lower entry.1) (New entry.2))
      acc (before ++ e :: after)) (lower e.1) = some (New e.2) := by
  rw [List.foldl_append, build_cons, get_build_of_not_mem lower New after _ _ hafter,
    GoMap.get_set, if_pos rfl]

/-- Among the entries with a given lower-cased domain, when there is one, there is
one that `range` visits last. -/
theorem exists_last_entry {υ : Type} (lower : Str → Str) (key : Str) (cfg : GoMap υ)
    (h : ∃ e ∈ cfg, lower e.1 = key) :
    ∃ before e after, cfg = before ++ e :: after ∧ lower e.1 = key ∧
      ∀ e' ∈ after, lower e'.1 ≠ key := by
  induction cfg with
  | nil =>
    obtain ⟨e, he, _⟩ := h
    cases he
  | cons x cfg ih =>
    by_cases hrest : ∃ e ∈ cfg, lower e.1 = key
    · obtain ⟨before, e, after, hcfg, he, hafter⟩ := ih hrest
      exact ⟨x :: before, e, after, by rw [hcfg, List.cons_append], he, hafter⟩
    · obtain ⟨e, he, hkey⟩ := h
      have hx : lower x.1 = key := by
        rcases List.mem_cons.1 he with rfl | he'
        · exact hkey
        · exact absurd ⟨e, he', hkey⟩ hrest
      exact ⟨[], x, cfg, rfl, hx, fun e' he' hk => hrest ⟨e', he', hk⟩⟩

theorem keys_build {υ ρ : Type} (lower : Str → Str) (New : υ → ρ) (cfg : GoMap υ) :
    ∀ (acc : GoMap ρ) (key : Str),
      key ∈ GoMap.keys (List.foldl
        (fun m entry => GoMap.set m (lower entry.1) (New entry.2)) acc cfg) ↔
      key ∈ GoMap.keys acc ∨ ∃ e ∈ cfg, lower e.1 = key := by
  induction cfg with
  | nil =>
    intro acc key
    constructor
    · exact Or.inl
    · rintro (h | ⟨e, he, _⟩)
      · exact h
      · cases he
  | cons e cfg ih =>
    intro acc key
    rw [build_cons, ih, GoMap.keys_set]
    constructor
    · rintro (h | ⟨e', he', h⟩)
      · split_ifs at h
        · exact Or.inl h
        · rcases List.mem_append.1 h with h | h
          · exact Or.inl h
          · exact Or.inr ⟨e, List.mem_cons_self _ _, (List.mem_singleton.1 h).symm⟩
      · exact Or.inr ⟨e', List.mem_cons_of_mem _ he', h⟩
    · rintro (h | ⟨e', he', h⟩)
      · left
        split_ifs
        · exact h
        · exact List.mem_append_left _ h
      · rcases List.mem_cons.1 he' with rfl | he'
        · left
          split_ifs with hk
          · exact h ▸ hk
          · exact List.mem_append_right _ (List.mem_singleton.2 h.symm)
        · exact Or.inr ⟨e', he', h⟩

theorem nodup_keys_build {υ ρ : Type} (lower : Str → Str) (New : υ → ρ) (cfg : GoMap υ) :
    ∀ (acc : GoMap ρ), (GoMap.keys acc).Nodup →
      (GoMap.keys (List.foldl
        (fun m entry => GoMap.set m (lower entry.1) (New entry.2)) acc cfg)).Nodup := by
  induction cfg with
  | nil => intro acc h; exact h
  | cons e cfg ih =>
    intro acc h
    rw [build_cons]
    apply ih
    rw [GoMap.keys_set]
    split_ifs with hk
    · exact h
    · rw [← List.concat_eq_append]
      exact List.Nodup.concat hk h

/-- The built map has one entry for each distinct lower-cased configured domain. -/
theorem len_build {υ ρ : Type} (lower : Str → Str) (New : υ → ρ) (cfg : GoMap υ) :
    GoMap.len (List.foldl (fun m entry => GoMap.set m (lower entry.1) (New entry.2))
      ([] : GoMap ρ) cfg) = ((cfg.map (fun e => lower e.1)).dedup).length := by
  have hlen : ∀ m : GoMap ρ, GoMap.len m = (GoMap.keys m).length := by
    intro m
    unfold GoMap.len GoMap.keys
    rw [List.length_map]
  rw [hlen]
  apply List.Perm.length_eq
  rw [List.perm_ext_iff_of_nodup
    (nodup_keys_build lower New cfg [] List.nodup_nil) (List.nodup_dedup _)]
  intro key
  rw [keys_build, List.mem_dedup, List.mem_map]
  constructor
  · rintro (h | h)
    · cases h
    · exact h
  · exact Or.inr

/-! ## The constructor and `Resolve` on the constructed resolver -/

/-- C2, amended: take a request in which the questions before `question` match no
configured key and `question` has a non-empty extracted domain that is lower-cased
and equals, compared case-insensitively, a configured domain.  On the resolver
built by `NewConditionalUpstreamResolver`, `Resolve` makes exactly one call, to the
upstream resolver constructed from the entry `e` that `range` visits last among
the configured entries whose domain equals that domain case-insensitively; when
that call returns a response `p` without error, `Resolve` returns `p` with
`Reason = "CONDITIONAL"` and resolver type `CONDITIONAL`; and `e` is the configured
pair itself when no other configured entry has the same lower-cased domain. -/
theorem Resolve_exact_match_case_insensitive {υ ρ : Type} (w : Chain ρ)
    (NewUpstreamResolver : υ → ρ) (cfg : GoMap υ) (request : Request)
    (pre post : List Question) (question : Question) (domain : Str) (upstream : υ)
    (hq : request.Req.Question = pre ++ question :: post)
    (hpre : ∀ q ∈ pre,
      ∀ k ∈ GoMap.keys (NewConditionalUpstreamResolver w.ToLower NewUpstreamResolver cfg).mapping,
        k ≠ [] → ¬ Matches (ExtractDomain w.ToLower q) k)
    (hcfg : (domain, upstream) ∈ cfg)
    (heq : w.ToLower (ExtractDomain w.ToLower question) = w.ToLower domain)
    (hlow : w.ToLower (ExtractDomain w.ToLower question) = ExtractDomain w.ToLower question)
    (hne : ExtractDomain w.ToLower question ≠ []) :
    ∃ before e after, cfg = before ++ e :: after ∧ w.ToLower e.1 = w.ToLower domain ∧
      (∀ e' ∈ after, w.ToLower e'.1 ≠ w.ToLower domain) ∧
      ((∀ e' ∈ cfg, w.ToLower e'.1 = w.ToLower domain → e' = (domain, upstream)) →
        e = (domain, upstream)) ∧
      (Resolve w (NewConditionalUpstreamResolver w.ToLower NewUpstreamResolver cfg)
          request).map Prod.fst = some [Call.upstream (NewUpstreamResolver e.2) request] ∧
      ∀ p, w.upstream (NewUpstreamResolver e.2) request = (some p, none) →
        Resolve w (NewConditionalUpstreamResolver w.ToLower NewUpstreamResolver cfg) request =
          some ([Call.upstream (NewUpstreamResolver e.2) request],
            Outcome.ret
              (some { Res := p.Res, Reason := "CONDITIONAL".toList,
                      rType := ResponseType.CONDITIONAL })
              none) := by
  obtain ⟨before, e, after, hsplit, he, hafter⟩ :=
    exists_last_entry w.ToLower (w.ToLower domain) cfg ⟨(domain, upstream), hcfg, rfl⟩
  have hd : ExtractDomain w.ToLower question = w.ToLower e.1 := by
    rw [← hlow, heq, he]
  have hget : GoMap.get (NewConditionalUpstreamResolver w.ToLower NewUpstreamResolver cfg).mapping
      (ExtractDomain w.ToLower question) = some (NewUpstreamResolver e.2) := by
    rw [hd, hsplit]
    exact get_build_last w.ToLower NewUpstreamResolver [] before after e
      (fun e' he' => he ▸ hafter e' he')
  have hcore := Resolve_core w
    (NewConditionalUpstreamResolver w.ToLower NewUpstreamResolver cfg) request
    pre post question (ExtractDomain w.ToLower question) (NewUpstreamResolver e.2) hq
    hpre hget hne (Or.inl rfl) (fun k' _ _ hm' => hm'.length_le)
  refine ⟨before, e, after, hsplit, he, hafter, ?_, ?_, ?_⟩
  · intro huniq
    exact huniq e (hsplit ▸ List.mem_append_right _ (List.mem_cons_self _ _)) he
  · rw [hcore]
    rfl
  · intro p hok
    rw [hcore]
    simp [callConditional, hok, annotate, loggedAnswer, conditionalReason]

/-- C2, scenario: the domain is configured as `Example.COM` and asked as
`EXAMPLE.com`, after a question for `www.example.net` that matches no key; the one
call is to `A`. -/
theorem Resolve_exact_match_case_insensitive_witness :
    (∃ before e after, Sample.cfgUpper = before ++ e :: after ∧
      Sample.chain.ToLower e.1 = Sample.chain.ToLower "Example.COM".toList ∧
      (∀ e' ∈ after, Sample.chain.ToLower e'.1 ≠ Sample.chain.ToLower "Example.COM".toList) ∧
      ((∀ e' ∈ Sample.cfgUpper,
          Sample.chain.ToLower e'.1 = Sample.chain.ToLower "Example.COM".toList →
          e' = ("Example.COM".toList, "A")) →
        e = ("Example.COM".toList, "A")) ∧
      (Resolve Sample.chain
          (NewConditionalUpstreamResolver Sample.chain.ToLower id Sample.cfgUpper)
          (Sample.askAll ["www.example.net.", "EXAMPLE.com."])).map Prod.fst =
        some [Call.upstream (id e.2) (Sample.askAll ["www.example.net.", "EXAMPLE.com."])] ∧
      ∀ p, Sample.chain.upstream (id e.2)
          (Sample.askAll ["www.example.net.", "EXAMPLE.com."]) = (some p, none) →
        Resolve Sample.chain
            (NewConditionalUpstreamResolver Sample.chain.ToLower id Sample.cfgUpper)
            (Sample.askAll ["www.example.net.", "EXAMPLE.com."]) =
          some ([Call.upstream (id e.2) (Sample.askAll ["www.example.net.", "EXAMPLE.com."])],
            Outcome.ret
              (some { Res := p.Res, Reason := "CONDITIONAL".toList,
                      rType := ResponseType.CONDITIONAL })
              none)) ∧
    (Resolve Sample.chain
        (NewConditionalUpstreamResolver Sample.chain.ToLower id Sample.cfgUpper)
        (Sample.askAll ["www.example.net.", "EXAMPLE.com."])).map Prod.fst =
      some [Call.upstream "A" (Sample.askAll ["www.example.net.", "EXAMPLE.com."])] :=
  ⟨Resolve_exact_match_case_insensitive Sample.chain id Sample.cfgUpper
      (Sample.askAll ["www.example.net.", "EXAMPLE.com."])
      [⟨"www.example.net.".toList, 1, 1⟩] [] ⟨"EXAMPLE.com.".toList, 1, 1⟩
      "Example.COM".toList "A" rfl (by decide) (by decide) (by decide) (by decide)
      (by decide),
    by decide⟩

/-- C2 fails as stated.  With `Example.com -> A` and `example.com -> B`
configured, the question `example.com` equals both configured domains
case-insensitively, and `Resolve` makes one call: to `B`, not to the upstream `A` of
`Example.com`, when `range` visits `Example.com` first, and to `A`, not to the
upstream `B` of `example.com`, when it visits `example.com` first.  With the empty
domain configured, the root question `.` has the extracted domain `""`, equal to the
configured domain, and `Resolve` calls the next node, not `A`.  With
`Example.COM -> A` and `corp.example.com -> B` configured, the request with the
questions `corp.example.com` and `example.com` has a question that equals the
configured domain `Example.COM` case-insensitively, and `Resolve` calls `B`, for
the question before it, not `A`. -/
theorem Resolve_exact_match_counterexample :
    (("Example.com".toList, "A") ∈ Sample.cfgSameUpToCase ∧
      Sample.lower (ExtractDomain Sample.lower ⟨"example.com.".toList, 1, 1⟩) =
        Sample.lower "Example.com".toList ∧
      (Resolve Sample.chain (NewConditionalUpstreamResolver Sample.lower id Sample.cfgSameUpToCase)
        (Sample.ask "example.com.")).map Prod.fst =
          some [Call.upstream "B" (Sample.ask "example.com.")] ∧
      (Resolve Sample.chain (NewConditionalUpstreamResolver Sample.lower id Sample.cfgSameUpToCase)
        (Sample.ask "example.com.")).map Prod.fst ≠
          some [Call.upstream "A" (Sample.ask "example.com.")]) ∧
    (("example.com".toList, "B") ∈ Sample.cfgSameUpToCase.reverse ∧
      Sample.lower (ExtractDomain Sample.lower ⟨"example.com.".toList, 1, 1⟩) =
        Sample.lower "example.com".toList ∧
      (Resolve Sample.chain
        (NewConditionalUpstreamResolver Sample.lower id Sample.cfgSameUpToCase.reverse)
        (Sample.ask "example.com.")).map Prod.fst =
          some [Call.upstream "A" (Sample.ask "example.com.")] ∧
      (Resolve Sample.chain
        (NewConditionalUpstreamResolver Sample.lower id Sample.cfgSameUpToCase.reverse)
        (Sample.ask "example.com.")).map Prod.fst ≠
          some [Call.upstream "B" (Sample.ask "example.com.")]) ∧
    (("".toList, "A") ∈ Sample.cfgEmptyKey ∧
      Sample.lower (ExtractDomain Sample.lower ⟨".".toList, 1, 1⟩) = Sample.lower "".toList ∧
      (Resolve Sample.chain (NewConditionalUpstreamResolver Sample.lower id Sample.cfgEmptyKey)
        (Sample.ask ".")).map Prod.fst = some [Call.next (Sample.ask ".")] ∧
      (Resolve Sample.chain (NewConditionalUpstreamResolver Sample.lower id Sample.cfgEmptyKey)
        (Sample.ask ".")).map Prod.fst ≠ some [Call.upstream "A" (Sample.ask ".")]) ∧
    (("Example.COM".toList, "A") ∈ Sample.cfgUpper ∧
      Sample.lower (ExtractDomain Sample.lower ⟨"example.com.".toList, 1, 1⟩) =
        Sample.lower "Example.COM".toList ∧
      (Resolve Sample.chain (NewConditionalUpstreamResolver Sample.lower id Sample.cfgUpper)
        (Sample.askAll ["corp.example.com.", "example.com."])).map Prod.fst =
          some [Call.upstream "B" (Sample.askAll ["corp.example.com.", "example.com."])] ∧
      (Resolve Sample.chain (NewConditionalUpstreamResolver Sample.lower id Sample.cfgUpper)
        (Sample.askAll ["corp.example.com.", "example.com."])).map Prod.fst ≠
          some [Call.upstream "A" (Sample.askAll ["corp.example.com.", "example.com."])]) :=
  ⟨by decide, by decide, by decide, by decide⟩

/-- C8, amended: in the `DomainMapping` that `NewConditionalUpstreamResolver`
builds, the keys are exactly the lower-cased forms of the configured domains (so
every key is lower-case: lower-casing leaves it unchanged, lower-casing being
idempotent) and are pairwise distinct; there is exactly one entry for each distinct
lower-cased configured domain, hence exactly as many entries as the configuration
has when no two configured domains have the same lower-cased form; and for every
configured pair `(domain, upstream)` the key `lower(domain)` is mapped to the
upstream resolver constructed from the entry that `range` visits last among the
configured entries with that lower-cased domain, which is the one constructed from
`upstream` when no other configured entry has that lower-cased domain. -/
theorem NewConditionalUpstreamResolver_mapping {υ ρ : Type} (ToLower : Str → Str)
    (NewUpstreamResolver : υ → ρ) (cfg : GoMap υ) :
    (∀ k, k ∈ GoMap.keys (NewConditionalUpstreamResolver ToLower NewUpstreamResolver cfg).mapping ↔
        ∃ e ∈ cfg, ToLower e.1 = k) ∧
      ((∀ s, ToLower (ToLower s) = ToLower s) →
        ∀ k ∈ GoMap.keys (NewConditionalUpstreamResolver ToLower NewUpstreamResolver cfg).mapping,
          ToLower k = k) ∧
      (GoMap.keys (NewConditionalUpstreamResolver ToLower NewUpstreamResolver cfg).mapping).Nodup ∧
      GoMap.len (NewConditionalUpstreamResolver ToLower NewUpstreamResolver cfg).mapping =
        ((cfg.map (fun e => ToLower e.1)).dedup).length ∧
      ((cfg.map (fun e => ToLower e.1)).Nodup →
        GoMap.len (NewConditionalUpstreamResolver ToLower NewUpstreamResolver cfg).mapping =
          GoMap.len cfg) ∧
      (∀ domain upstream, (domain, upstream) ∈ cfg →
        ∃ before e after, cfg = before ++ e :: after ∧ ToLower e.1 = ToLower domain ∧
          (∀ e' ∈ after, ToLower e'.1 ≠ ToLower domain) ∧
          GoMap.get (NewConditionalUpstreamResolver ToLower NewUpstreamResolver cfg).mapping
            (ToLower domain) = some (NewUpstreamResolver e.2) ∧
          ((∀ e' ∈ cfg, ToLower e'.1 = ToLower domain → e' = (domain, upstream)) →
            GoMap.get (NewConditionalUpstreamResolver ToLower NewUpstreamResolver cfg).mapping
              (ToLower domain) = some (NewUpstreamResolver upstream))) := by
  have hkeys : ∀ k,
      k ∈ GoMap.keys (NewConditionalUpstreamResolver ToLower NewUpstreamResolver cfg).mapping ↔
        ∃ e ∈ cfg, ToLower e.1 = k := by
    intro k
    constructor
    · intro hk
      rcases (keys_build ToLower NewUpstreamResolver cfg [] k).1 hk with h | h
      · cases h
      · exact h
    · intro h
      exact (keys_build ToLower NewUpstreamResolver cfg [] k).2 (Or.inr h)
  have hlen := len_build (ρ := ρ) ToLower NewUpstreamResolver cfg
  refine ⟨hkeys, ?_, nodup_keys_build ToLower NewUpstreamResolver cfg [] List.nodup_nil,
    hlen, ?_, ?_⟩
  · intro hidem k hk
    obtain ⟨e, _, rfl⟩ := (hkeys k).1 hk
    exact hidem e.1
  · intro hnd
    show GoMap.len (List.foldl
      (fun m entry => GoMap.set m (ToLower entry.1) (NewUpstreamResolver entry.2)) [] cfg) = _
    rw [hlen, List.dedup_eq_self.2 hnd, List.length_map]
    rfl
  · intro domain upstream hmem
    obtain ⟨before, e, after, hsplit, he, hafter⟩ :=
      exists_last_entry ToLower (ToLower domain) cfg ⟨(domain, upstream), hmem, rfl⟩
    have hget : GoMap.get
        (NewConditionalUpstreamResolver ToLower NewUpstreamResolver cfg).mapping
        (ToLower domain) = some (NewUpstreamResolver e.2) := by
      rw [← he, hsplit]
      exact get_build_last ToLower NewUpstreamResolver [] before after e
        (fun e' he' => he ▸ hafter e' he')
    refine ⟨before, e, after, hsplit, he, hafter, hget, ?_⟩
    intro huniq
    have hee : e = (domain, upstream) :=
      huniq e (hsplit ▸ List.mem_append_right _ (List.mem_cons_self _ _)) he
    rw [hget, hee]

/-- C8, scenario: the configuration `Example.COM -> A`, `corp.example.com -> B`
gives the two keys `example.com` and `corp.example.com`; the configuration of two
domains that differ by the case of the letter A with diaeresis gives one key. -/
theorem NewConditionalUpstreamResolver_mapping_witness :
    (Sample.cfgUpper.map (fun e => Sample.lower e.1)).Nodup ∧
      (NewConditionalUpstreamResolver Sample.lower id Sample.cfgUpper).mapping =
        [("example.com".toList, "A"), ("corp.example.com".toList, "B")] ∧
      GoMap.len (NewConditionalUpstreamResolver Sample.lower id Sample.cfgUpper).mapping =
        GoMap.len Sample.cfgUpper ∧
      (NewConditionalUpstreamResolver Sample.lower id Sample.cfgUmlaut).mapping =
        [(Char.ofNat 228 :: ".de".toList, "B")] ∧
      GoMap.len (NewConditionalUpstreamResolver Sample.lower id Sample.cfgUmlaut).mapping =
        ((Sample.cfgUmlaut.map (fun e => Sample.lower e.1)).dedup).length :=
  ⟨by decide, by decide,
    (NewConditionalUpstreamResolver_mapping Sample.lower id Sample.cfgUpper).2.2.2.2.1
      (by decide),
    by decide,
    (NewConditionalUpstreamResolver_mapping (ρ := String) Sample.lower id
      Sample.cfgUmlaut).2.2.2.1⟩

/-- C8 fails as stated: the configuration `Example.com -> A`, `example.com -> B`
has two entries with distinct domains, and the `DomainMapping` built from it has one
entry, in whichever order `range` visits the two.  When `Example.com` is visited
first, the key `lower("Example.com")` is mapped to the resolver built from `B`, not
to the one built from `A`; when `example.com` is visited first, the key
`lower("example.com")` is mapped to the resolver built from `A`, not to the one
built from `B`. -/
theorem NewConditionalUpstreamResolver_counterexample :
    (GoMap.keys Sample.cfgSameUpToCase).Nodup ∧
      GoMap.len Sample.cfgSameUpToCase = 2 ∧
      GoMap.len (NewConditionalUpstreamResolver Sample.lower id
        Sample.cfgSameUpToCase).mapping = 1 ∧
      GoMap.len (NewConditionalUpstreamResolver Sample.lower id
        Sample.cfgSameUpToCase.reverse).mapping = 1 ∧
      ("Example.com".toList, "A") ∈ Sample.cfgSameUpToCase ∧
      GoMap.get (NewConditionalUpstreamResolver Sample.lower id Sample.cfgSameUpToCase).mapping
        (Sample.lower "Example.com".toList) = some (id "B") ∧
      GoMap.get (NewConditionalUpstreamResolver Sample.lower id Sample.cfgSameUpToCase).mapping
        (Sample.lower "Example.com".toList) ≠ some (id "A") ∧
      ("example.com".toList, "B") ∈ Sample.cfgSameUpToCase.reverse ∧
      GoMap.get (NewConditionalUpstreamResolver Sample.lower id
        Sample.cfgSameUpToCase.reverse).mapping
        (Sample.lower "example.com".toList) = some (id "A") ∧
      GoMap.get (NewConditionalUpstreamResolver Sample.lower id
        Sample.cfgSameUpToCase.reverse).mapping
        (Sample.lower "example.com".toList) ≠ some (id "B") := by
  decide

/-! ## `Split` and the comma-separated components -/

theorem Split_cons (c : Char) (cs : Str) (sep : Char) :
    Split (c :: cs) sep =
      if c = sep then [] :: Split cs sep
      else
        match Split cs sep with
        | [] => [[c]]
        | part :: parts => (c :: part) :: parts := rfl

theorem Split_ne_nil (s : Str) (sep : Char) : Split s sep ≠ [] := by
  induction s with
  | nil => simp [Split]
  | cons c cs ih =>
    unfold Split
    split_ifs
    · simp
    · cases h : Split cs sep with
      | nil => exact absurd h ih
      | cons part parts => simp

theorem Split_no_sep (x : Str) (sep : Char) (hx : sep ∉ x) : Split x sep = [x] := by
  induction x with
  | nil => rfl
  | cons c cs ih =>
    rw [List.mem_cons, not_or] at hx
    unfold Split
    rw [if_neg (fun e => hx.1 e.symm), ih hx.2]

theorem Split_append_sep (x rest : Str) (sep : Char) (hx : sep ∉ x) :
    Split (x ++ sep :: rest) sep = x :: Split rest sep := by
  induction x with
  | nil =>
    show Split (sep :: rest) sep = _
    rw [Split_cons, if_pos rfl]
  | cons c cs ih =>
    rw [List.mem_cons, not_or] at hx
    rw [List.cons_append, Split_cons, if_neg (fun e => hx.1 e.symm), ih hx.2]

theorem intercalate_cons_cons (sep x : Str) (y : Str) (ys : List Str) :
    sep.intercalate (x :: y :: ys) = x ++ sep ++ sep.intercalate (y :: ys) := by
  simp [List.intercalate, List.intersperse]

/-- The components of a text are unique: they are what `Split` computes. -/
theorem Components.eq_Split {text : Str} {parts : List Str} (h : Components text parts) :
    parts = Split text ',' := by
  obtain ⟨hne, hno, hjoin⟩ := h
  induction parts generalizing text with
  | nil => exact absurd rfl hne
  | cons x parts ih =>
    cases parts with
    | nil =>
      have hx : [','].intercalate [x] = x := by simp [List.intercalate, List.intersperse]
      rw [hx] at hjoin
      subst hjoin
      exact (Split_no_sep x ',' (hno x (List.mem_cons_self _ _))).symm
    | cons y ys =>
      rw [intercalate_cons_cons] at hjoin
      subst hjoin
      have hx : ',' ∉ x := hno x (List.mem_cons_self _ _)
      have htail : y :: ys = Split ([','].intercalate (y :: ys)) ',' :=
        ih (List.cons_ne_nil y ys) (fun z hz => hno z (List.mem_cons_of_mem _ hz)) rfl
      rw [List.append_assoc]
      show x :: y :: ys = Split (x ++ ',' :: [','].intercalate (y :: ys)) ','
      rw [Split_append_sep x _ ',' hx, ← htail]

/-- What `Split` computes are the components of the text. -/
theorem Split_components (text : Str) : Components text (Split text ',') := by
  induction text with
  | nil => exact ⟨by simp [Split], by simp [Split], by simp [Split, List.intercalate]⟩
  | cons c cs ih =>
    obtain ⟨hne, hno, hjoin⟩ := ih
    refine ⟨Split_ne_nil _ _, ?_, ?_⟩
    · unfold Split
      split_ifs with hc
      · intro x hx
        rcases List.mem_cons.1 hx with rfl | hx
        · simp
        · exact hno x hx
      · cases hs : Split cs ',' with
        | nil => exact absurd hs hne
        | cons part parts =>
          rw [hs] at hno
          intro x hx
          rcases List.mem_cons.1 hx with rfl | hx
          · rw [List.mem_cons, not_or]
            exact ⟨fun e => hc e.symm, hno part (List.mem_cons_self _ _)⟩
          · exact hno x (List.mem_cons_of_mem _ hx)
    · unfold Split
      split_ifs with hc
      · cases hs : Split cs ',' with
        | nil => exact absurd hs hne
        | cons part parts =>
          rw [hs] at hjoin
          rw [intercalate_cons_cons, hjoin, hc]
          rfl
      · cases hs : Split cs ',' with
        | nil => exact absurd hs hne
        | cons part parts =>
          rw [hs] at hjoin
          cases parts with
          | nil =>
            simp only [List.intercalate, List.intersperse, List.flatten_cons, List.flatten_nil,
              List.append_nil] at hjoin ⊢
            rw [hjoin]
          | cons y ys =>
            rw [intercalate_cons_cons] at hjoin ⊢
            rw [← hjoin]
            rfl

/-! ## `GetBlockingDisable` -/

/-- C9: for a disable request whose duration parameter is present and does not
parse as a time span, `GetBlockingDisable` returns the 400 response carrying the
sanitized text of the parse error, returns no system error, and makes no call on
the controller, whose state is what it was before the request. -/
theorem GetBlockingDisable_malformed_duration {σ : Type} (lib : Lib)
    (control : BlockingControl σ) (s : σ) (request : GetBlockingDisableRequestObject)
    (text : Str) (e : Err)
    (hd : request.Params.Duration = some text)
    (hp : lib.ParseDuration text = Except.error e) :
    (GetBlockingDisable lib control s request).response =
        some (GetBlockingDisableResponseObject.GetBlockingDisable400TextResponse
          (lib.EscapeInput e)) ∧
      (GetBlockingDisable lib control s request).err = none ∧
      (GetBlockingDisable lib control s request).calls = [] ∧
      (GetBlockingDisable lib control s request).state = s := by
  simp [GetBlockingDisable, hd, hp]

/-- C9, scenario: the duration `notaduration` on an enabled controller. -/
theorem GetBlockingDisable_malformed_duration_witness :
    (GetBlockingDisable Sample.lib Sample.control Sample.enabled
        ⟨⟨some "notaduration".toList, some "ads".toList⟩⟩).response =
        some (GetBlockingDisableResponseObject.GetBlockingDisable400TextResponse
          (Sample.lib.EscapeInput "time: invalid duration \"notaduration\"".toList)) ∧
      (GetBlockingDisable Sample.lib Sample.control Sample.enabled
        ⟨⟨some "notaduration".toList, some "ads".toList⟩⟩).err = none ∧
      (GetBlockingDisable Sample.lib Sample.control Sample.enabled
        ⟨⟨some "notaduration".toList, some "ads".toList⟩⟩).calls = [] ∧
      (GetBlockingDisable Sample.lib Sample.control Sample.enabled
        ⟨⟨some "notaduration".toList, some "ads".toList⟩⟩).state = Sample.enabled :=
  GetBlockingDisable_malformed_duration Sample.lib Sample.control Sample.enabled
    ⟨⟨some "notaduration".toList, some "ads".toList⟩⟩ "notaduration".toList
    "time: invalid duration \"notaduration\"".toList rfl rfl

/-- C10: for a disable request whose duration is absent (then `duration = 0`) or
parses to `duration`, and whose group list `groups` is empty when the groups
parameter is absent and is otherwise the list of its comma-separated components in
their original order, `GetBlockingDisable` makes exactly one call on the
controller, `DisableBlocking(duration, groups)`, returns no system error, answers
200 if and only if that call returned no error, and otherwise answers 400 with the
sanitized text of the error the call returned. -/
theorem GetBlockingDisable_translation {σ : Type} (lib : Lib) (control : BlockingControl σ)
    (s : σ) (request : GetBlockingDisableRequestObject) (duration : Duration)
    (groups : List Str)
    (hd : (request.Params.Duration = none ∧ duration = 0) ∨
      ∃ text, request.Params.Duration = some text ∧
        lib.ParseDuration text = Except.ok duration)
    (hg : (request.Params.Groups = none ∧ groups = []) ∨
      ∃ text, request.Params.Groups = some text ∧ Components text groups) :
    (GetBlockingDisable lib control s request).calls =
        [ControlCall.DisableBlocking duration groups] ∧
      (GetBlockingDisable lib control s request).state =
        (control.DisableBlocking duration groups s).2 ∧
      (GetBlockingDisable lib control s request).err = none ∧
      ((GetBlockingDisable lib control s request).response =
          some GetBlockingDisableResponseObject.GetBlockingDisable200Response ↔
        (control.DisableBlocking duration groups s).1 = none) ∧
      (∀ e, (control.DisableBlocking duration groups s).1 = some e →
        (GetBlockingDisable lib control s request).response =
          some (GetBlockingDisableResponseObject.GetBlockingDisable400TextResponse
            (lib.EscapeInput e))) := by
  have hparsed : (match request.Params.Duration with
      | some text => lib.ParseDuration text
      | none => Except.ok 0) = Except.ok duration := by
    rcases hd with ⟨h, rfl⟩ | ⟨text, h, hp⟩
    · rw [h]
    · rw [h]
      exact hp
  have hgroups : (match request.Params.Groups with
      | some text => Split text ','
      | none => []) = groups := by
    rcases hg with ⟨h, rfl⟩ | ⟨text, h, hc⟩
    · rw [h]
    · rw [h]
      exact hc.eq_Split.symm
  unfold GetBlockingDisable
  simp only [hparsed, hgroups]
  cases hres : (control.DisableBlocking duration groups s).1 with
  | none => simp
  | some e => simp

/-- C10, scenario: `duration=90s&groups=ads,kids` on an enabled controller is the
call `DisableBlocking(90s, ["ads", "kids"])` and is answered 200. -/
theorem GetBlockingDisable_translation_witness :
    Components "ads,kids".toList ["ads".toList, "kids".toList] ∧
      (GetBlockingDisable Sample.lib Sample.control Sample.enabled
        ⟨⟨some "90s".toList, some "ads,kids".toList⟩⟩).calls =
          [ControlCall.DisableBlocking 90000000000 ["ads".toList, "kids".toList]] ∧
      (GetBlockingDisable Sample.lib Sample.control Sample.enabled
        ⟨⟨some "90s".toList, some "ads,kids".toList⟩⟩).response =
          some GetBlockingDisableResponseObject.GetBlockingDisable200Response :=
  have h := GetBlockingDisable_translation Sample.lib Sample.control Sample.enabled
    ⟨⟨some "90s".toList, some "ads,kids".toList⟩⟩ 90000000000
    ["ads".toList, "kids".toList]
    (Or.inr ⟨"90s".toList, rfl, rfl⟩)
    (Or.inr ⟨"ads,kids".toList, rfl, by decide⟩)
  ⟨by decide, h.1, h.2.2.2.1.2 (by decide)⟩

/-- Scenario: `groups=ads,,kids` without duration is the call
`DisableBlocking(0, ["ads", "", "kids"])`; the controller refuses the group with
the empty name, and the answer is 400 with the sanitized text of its error. -/
theorem GetBlockingDisable_refused_example :
    (GetBlockingDisable Sample.lib Sample.control Sample.enabled
        ⟨⟨none, some "ads,,kids".toList⟩⟩).calls =
        [ControlCall.DisableBlocking 0 ["ads".toList, [], "kids".toList]] ∧
      (GetBlockingDisable Sample.lib Sample.control Sample.enabled
        ⟨⟨none, some "ads,,kids".toList⟩⟩).response =
        some (GetBlockingDisableResponseObject.GetBlockingDisable400TextResponse
          "group isunknown".toList) ∧
      (GetBlockingDisable Sample.lib Sample.control Sample.enabled
        ⟨⟨none, some "ads,,kids".toList⟩⟩).state = Sample.enabled := by
  decide

/-! ## `PostQuery`, `GetBlockingStatus` and `Configuration` -/

/-- C11: `PostQuery` rejects exactly the unrecognized query types.  When the type
string of the body is not a name of the type table, or is a name of the zero type,
`PostQuery` makes no call on the querier and returns, without error, the 400
response with the text `unknown query type '<type>'`, the type string verbatim
between the quotes.  Otherwise it makes exactly one call on the querier,
`Query(Fqdn(query), code)`, with the code the table gives for the type string, and
does not answer 400: it returns the error of that call, or the 200 response made
of the reason, the name of the response type, the rendered answer and the name of
the result code of the response of that call (and it panics when that call returns
neither a response nor an error). -/
theorem PostQuery_rejects_unknown_types (lib : DnsLib)
    (querier : Str → Nat → Option Response × Option Err) (request : PostQueryRequestObject) :
    ((GoMap.get lib.StringToType request.Body.Type_ = none ∨
        GoMap.get lib.StringToType request.Body.Type_ = some 0) →
      PostQuery lib querier request =
        ([], PostQueryOutcome.ret
          (some (PostQueryResponseObject.PostQuery400TextResponse
            ("unknown query type ".toList ++ [Char.ofNat 39] ++ request.Body.Type_ ++
              [Char.ofNat 39])))
          none)) ∧
    (∀ code, GoMap.get lib.StringToType request.Body.Type_ = some code → code ≠ 0 →
      PostQuery lib querier request =
        ([QuerierCall.Query (lib.Fqdn request.Body.Query) code],
          match (querier (lib.Fqdn request.Body.Query) code).2 with
          | some err => PostQueryOutcome.ret none (some err)
          | none =>
            match (querier (lib.Fqdn request.Body.Query) code).1 with
            | none => PostQueryOutcome.panic
            | some resp =>
              PostQueryOutcome.ret
                (some (PostQueryResponseObject.PostQuery200JSONResponse
                  { Reason := resp.Reason,
                    ResponseType := lib.RTypeString resp.rType,
                    Response := lib.AnswerToString resp.Res.Answer,
                    ReturnCode := lib.RcodeToString resp.Res.Rcode }))
                none) ∧
      ∀ text err, (PostQuery lib querier request).2 ≠
        PostQueryOutcome.ret
          (some (PostQueryResponseObject.PostQuery400TextResponse text)) err) := by
  constructor
  · intro h
    have hz : (GoMap.get lib.StringToType request.Body.Type_).getD 0 = 0 := by
      rcases h with h | h <;> rw [h] <;> rfl
    unfold PostQuery
    simp only [hz, if_true]
    rfl
  · intro code hcode hne
    have hz : (GoMap.get lib.StringToType request.Body.Type_).getD 0 = code := by
      rw [hcode]
      rfl
    have hrun : PostQuery lib querier request =
        ([QuerierCall.Query (lib.Fqdn request.Body.Query) code],
          match (querier (lib.Fqdn request.Body.Query) code).2 with
          | some err => PostQueryOutcome.ret none (some err)
          | none =>
            match (querier (lib.Fqdn request.Body.Query) code).1 with
            | none => PostQueryOutcome.panic
            | some resp =>
              PostQueryOutcome.ret
                (some (PostQueryResponseObject.PostQuery200JSONResponse
                  { Reason := resp.Reason,
                    ResponseType := lib.RTypeString resp.rType,
                    Response := lib.AnswerToString resp.Res.Answer,
                    ReturnCode := lib.RcodeToString resp.Res.Rcode }))
                none) := by
      unfold PostQuery
      simp only [hz, if_neg hne]
    refine ⟨hrun, ?_⟩
    intro text err
    rw [hrun]
    cases h2 : (querier (lib.Fqdn request.Body.Query) code).2 with
    | some e => simp
    | none =>
      cases h1 : (querier (lib.Fqdn request.Body.Query) code).1 with
      | none => simp
      | some resp => simp

/-- C11, scenario: the types `FOO` (not in the table) and `None` (the zero type)
are rejected without a call, and the type `AAAA` for the name `example.com` is the
call `Query("example.com.", 28)`, whose response is answered 200. -/
theorem PostQuery_rejects_unknown_types_witness :
    PostQuery Sample.dns Sample.querier ⟨⟨"example.com".toList, "FOO".toList⟩⟩ =
        ([], PostQueryOutcome.ret
          (some (PostQueryResponseObject.PostQuery400TextResponse
            ("unknown query type ".toList ++ [Char.ofNat 39] ++ "FOO".toList ++
              [Char.ofNat 39])))
          none) ∧
      PostQuery Sample.dns Sample.querier ⟨⟨"example.com".toList, "None".toList⟩⟩ =
        ([], PostQueryOutcome.ret
          (some (PostQueryResponseObject.PostQuery400TextResponse
            ("unknown query type ".toList ++ [Char.ofNat 39] ++ "None".toList ++
              [Char.ofNat 39])))
          none) ∧
      (∀ text err,
        (PostQuery Sample.dns Sample.querier ⟨⟨"example.com".toList, "AAAA".toList⟩⟩).2 ≠
          PostQueryOutcome.ret
            (some (PostQueryResponseObject.PostQuery400TextResponse text)) err) ∧
      PostQuery Sample.dns Sample.querier ⟨⟨"example.com".toList, "AAAA".toList⟩⟩ =
        ([QuerierCall.Query "example.com.".toList 28],
          PostQueryOutcome.ret
            (some (PostQueryResponseObject.PostQuery200JSONResponse
              { Reason := "RESOLVED (upstream)".toList,
                ResponseType := "RESOLVED".toList,
                Response := "upstream".toList,
                ReturnCode := "NOERROR".toList }))
            none) :=
  ⟨(PostQuery_rejects_unknown_types Sample.dns Sample.querier
      ⟨⟨"example.com".toList, "FOO".toList⟩⟩).1 (Or.inl (by decide)),
    (PostQuery_rejects_unknown_types Sample.dns Sample.querier
      ⟨⟨"example.com".toList, "None".toList⟩⟩).1 (Or.inr (by decide)),
    ((PostQuery_rejects_unknown_types Sample.dns Sample.querier
      ⟨⟨"example.com".toList, "AAAA".toList⟩⟩).2 28 (by decide) (by decide)).2,
    by decide⟩

/-- C12: for the `BlockingStatus` `st` that the controller returns,
`GetBlockingStatus` makes that one call, leaves the controller as it was and
returns, without error, a 200 result whose `Enabled` is `st.Enabled`, whose
`AutoEnableInSec` is present exactly when `st.AutoEnableInSec > 0` and is then that
number, and whose `DisabledGroups` is present exactly when `st.DisabledGroups` is
not empty and is then that list; for an enabled status with no groups and zero
seconds the result has the enabled flag only. -/
theorem GetBlockingStatus_projection {σ : Type} (control : BlockingControl σ) (s : σ)
    (request : GetBlockingStatusRequestObject) :
    (GetBlockingStatus control s request).response =
        some (GetBlockingStatusResponseObject.GetBlockingStatus200JSONResponse
          { Enabled := (control.BlockingStatus s).Enabled,
            AutoEnableInSec :=
              if (control.BlockingStatus s).AutoEnableInSec > 0 then
                some (control.BlockingStatus s).AutoEnableInSec
              else none,
            DisabledGroups :=
              if (control.BlockingStatus s).DisabledGroups ≠ [] then
                some (control.BlockingStatus s).DisabledGroups
              else none }) ∧
      (GetBlockingStatus control s request).err = none ∧
      (GetBlockingStatus control s request).calls = [ControlCall.BlockingStatus] ∧
      (GetBlockingStatus control s request).state = s ∧
      (control.BlockingStatus s =
          { Enabled := true, DisabledGroups := [], AutoEnableInSec := 0 } →
        (GetBlockingStatus control s request).response =
          some (GetBlockingStatusResponseObject.GetBlockingStatus200JSONResponse
            { Enabled := true, AutoEnableInSec := none, DisabledGroups := none })) := by
  have hresp : (GetBlockingStatus control s request).response =
      some (GetBlockingStatusResponseObject.GetBlockingStatus200JSONResponse
        { Enabled := (control.BlockingStatus s).Enabled,
          AutoEnableInSec :=
            if (control.BlockingStatus s).AutoEnableInSec > 0 then
              some (control.BlockingStatus s).AutoEnableInSec
            else none,
          DisabledGroups :=
            if (control.BlockingStatus s).DisabledGroups ≠ [] then
              some (control.BlockingStatus s).DisabledGroups
            else none }) := by
    unfold GetBlockingStatus
    by_cases h1 : (control.BlockingStatus s).AutoEnableInSec > 0 <;>
      by_cases h2 : (control.BlockingStatus s).DisabledGroups = [] <;>
      simp [h1, h2, List.length_pos]
  refine ⟨hresp, rfl, rfl, rfl, ?_⟩
  intro h
  rw [hresp, h]
  rfl

/-- C12, scenario: an enabled controller gives the enabled flag only; a controller
with the group `ads` disabled for 90 more seconds gives both optional fields. -/
theorem GetBlockingStatus_projection_witness :
    (GetBlockingStatus Sample.control Sample.enabled ⟨⟩).response =
        some (GetBlockingStatusResponseObject.GetBlockingStatus200JSONResponse
          { Enabled := true, AutoEnableInSec := none, DisabledGroups := none }) ∧
      (GetBlockingStatus Sample.control Sample.adsDisabled ⟨⟩).response =
        some (GetBlockingStatusResponseObject.GetBlockingStatus200JSONResponse
          { Enabled := false, AutoEnableInSec := some 90,
            DisabledGroups := some ["ads".toList] }) :=
  ⟨(GetBlockingStatus_projection Sample.control Sample.enabled ⟨⟩).2.2.2.2 rfl, by decide⟩

/-- A configuration line ends with a double quote, so it is not the sentinel. -/
theorem configLine_ne_deactivated (key val : Str) : configLine key val ≠ "deactivated".toList := by
  intro h
  have h1 : (configLine key val).getLast? = some (Char.ofNat 34) := by
    show (key ++ " = \"".toList ++ val ++ [Char.ofNat 34]).getLast? = _
    exact List.getLast?_concat _
  rw [h] at h1
  revert h1
  decide

/-- C13: for a resolver whose mapping has `n > 0` entries, `Configuration()`
returns exactly `n` lines; the lines are, up to order, the strings
`key ++ " = \"" ++ description(upstream) ++ "\""` of the entries `(key, upstream)`
of the mapping, whatever the order in which the mapping is ranged over; and the
sentinel `deactivated` is not among them. -/
theorem Configuration_lists_every_entry {ρ : Type} (w : Chain ρ)
    (r : ConditionalUpstreamResolver ρ) (h : GoMap.len r.mapping > 0) :
    (Configuration w r).length = GoMap.len r.mapping ∧
      (Configuration w r).Perm
        (r.mapping.map (fun e => e.1 ++ " = \"".toList ++ w.describe e.2 ++ "\"".toList)) ∧
      (∀ r' : ConditionalUpstreamResolver ρ, r'.mapping.Perm r.mapping →
        (Configuration w r').Perm (Configuration w r)) ∧
      "deactivated".toList ∉ Configuration w r := by
  have hcfg : Configuration w r =
      r.mapping.map (fun e => configLine e.1 (w.describe e.2)) := by
    unfold Configuration
    rw [if_pos h]
  refine ⟨?_, ?_, ?_, ?_⟩
  · rw [hcfg, List.length_map]
    rfl
  · rw [hcfg]
    exact List.Perm.refl _
  · intro r' hperm
    have hlen : GoMap.len r'.mapping > 0 := by
      have := hperm.length_eq
      unfold GoMap.len at h ⊢
      omega
    have hcfg' : Configuration w r' =
        r'.mapping.map (fun e => configLine e.1 (w.describe e.2)) := by
      unfold Configuration
      rw [if_pos hlen]
    rw [hcfg, hcfg']
    exact hperm.map _
  · rw [hcfg]
    intro hmem
    obtain ⟨e, _, he⟩ := List.mem_map.1 hmem
    exact configLine_ne_deactivated e.1 (w.describe e.2) he

/-- C13, scenario: the two zones `example.com -> A`, `corp.example.com -> B`. -/
theorem Configuration_lists_every_entry_witness :
    GoMap.len Sample.twoZones.mapping > 0 ∧
      Configuration Sample.chain Sample.twoZones =
        ["example.com = \"A\"".toList, "corp.example.com = \"B\"".toList] ∧
      (Configuration Sample.chain Sample.twoZones).length =
        GoMap.len Sample.twoZones.mapping ∧
      "deactivated".toList ∉ Configuration Sample.chain Sample.twoZones :=
  have h := Configuration_lists_every_entry Sample.chain Sample.twoZones (by decide)
  ⟨by decide, by decide, h.1, h.2.2.2⟩

/-! ## The blocking controller -/

/-- C14: on a controller in the Enabled state, `EnableBlocking()` leaves the
value of `BlockingStatus()` unchanged; that value is `Enabled = true` with the
empty group list and zero seconds, and the controller stays Enabled.  The
operation returns no error value. -/
theorem EnableBlocking_idempotent (c : BlockingController)
    (h : c.state = BlockingState.Enabled) :
    BlockingController.BlockingStatus (BlockingController.EnableBlocking c) =
        BlockingController.BlockingStatus c ∧
      BlockingController.BlockingStatus c =
        { Enabled := true, DisabledGroups := [], AutoEnableInSec := 0 } ∧
      (BlockingController.EnableBlocking c).state = BlockingState.Enabled ∧
      BlockingController.EnableBlocking (BlockingController.EnableBlocking c) =
        BlockingController.EnableBlocking c := by
  refine ⟨?_, ?_, rfl, rfl⟩
  · unfold BlockingController.BlockingStatus BlockingController.EnableBlocking
    rw [h]
  · unfold BlockingController.BlockingStatus
    rw [h]

/-- C14, scenario: the controller at startup. -/
theorem EnableBlocking_idempotent_witness :
    BlockingController.initial.state = BlockingState.Enabled ∧
      BlockingController.BlockingStatus
          (BlockingController.EnableBlocking BlockingController.initial) =
        BlockingController.BlockingStatus BlockingController.initial ∧
      BlockingController.BlockingStatus BlockingController.initial =
        { Enabled := true, DisabledGroups := [], AutoEnableInSec := 0 } :=
  have h := EnableBlocking_idempotent BlockingController.initial rfl
  ⟨rfl, h.1, h.2.1⟩

/-- C15: of two consecutive `DisableBlocking` calls, whatever time `t` passes
between them, the second decides alone: the controller after the second call is
the one the second call alone would have produced at that instant, so its
deadline, its exempt groups and its armed timer are those of the second call.
From then on the only transition that the passing of time causes is the
re-enabling at the second call's deadline: time passing to `t'` gives an Enabled
controller without timer when the second duration is positive and its deadline
`t + d2` is reached, and changes nothing but the clock otherwise; and once
re-enabled, further passing of time causes no transition. -/
theorem DisableBlocking_supersedes (c : BlockingController) (d1 d2 : Duration)
    (g1 g2 : List Str) (t t' t'' : Int) :
    BlockingController.DisableBlocking d2 g2
        (BlockingController.advance t (BlockingController.DisableBlocking d1 g1 c).2) =
      BlockingController.DisableBlocking d2 g2 { c with now := t } ∧
    (BlockingController.DisableBlocking d2 g2
        (BlockingController.advance t (BlockingController.DisableBlocking d1 g1 c).2)).2 =
      { state := BlockingState.Disabled (if d2 > 0 then some (t + d2) else none) g2,
        timer := if d2 > 0 then some (t + d2) else none,
        now := t } ∧
    BlockingController.advance t'
        (BlockingController.DisableBlocking d2 g2
          (BlockingController.advance t (BlockingController.DisableBlocking d1 g1 c).2)).2 =
      (if d2 > 0 ∧ t + d2 ≤ t' then
        { state := BlockingState.Enabled, timer := none, now := t' }
      else
        { state := BlockingState.Disabled (if d2 > 0 then some (t + d2) else none) g2,
          timer := if d2 > 0 then some (t + d2) else none,
          now := t' }) ∧
    BlockingController.advance t''
        ({ state := BlockingState.Enabled, timer := none, now := t' } : BlockingController) =
      { state := BlockingState.Enabled, timer := none, now := t'' } := by
  have hsecond : ∀ x : BlockingController, x.now = t →
      BlockingController.DisableBlocking d2 g2 x =
        (none, { state := BlockingState.Disabled (if d2 > 0 then some (t + d2) else none) g2,
                 timer := if d2 > 0 then some (t + d2) else none,
                 now := t }) := by
    intro x hx
    unfold BlockingController.DisableBlocking
    by_cases h : d2 > 0
    · simp [h, hx]
    · simp [h, hx]
  have hnow : (BlockingController.advance t
      (BlockingController.DisableBlocking d1 g1 c).2).now = t := by
    unfold BlockingController.advance
    split
    · split_ifs <;> rfl
    · rfl
  refine ⟨?_, ?_, ?_, rfl⟩
  · rw [hsecond _ hnow, hsecond _ rfl]
  · rw [hsecond _ hnow]
  · rw [hsecond _ hnow]
    unfold BlockingController.advance BlockingController.EnableBlocking
    by_cases h : d2 > 0
    · by_cases h' : t + d2 ≤ t'
      · simp [h, h']
      · simp [h, h']
    · simp [h]

/-- C15, scenario: on the controller at startup, `DisableBlocking(10s, ["kids"])`
followed immediately by `DisableBlocking(2s, nil)`: the deadline is at 2s and all
groups are disabled; after 2s blocking is enabled again and no timer is armed; at
10s and later nothing changes but the clock. -/
theorem DisableBlocking_supersedes_witness :
    BlockingController.DisableBlocking 2000000000 []
        (BlockingController.advance 0
          (BlockingController.DisableBlocking 10000000000 ["kids".toList]
            BlockingController.initial).2) =
      BlockingController.DisableBlocking 2000000000 []
        { BlockingController.initial with now := 0 } ∧
    (BlockingController.DisableBlocking 2000000000 []
        (BlockingController.DisableBlocking 10000000000 ["kids".toList]
          BlockingController.initial).2).2 =
      { state := BlockingState.Disabled (some 2000000000) [],
        timer := some 2000000000, now := 0 } ∧
    BlockingController.BlockingStatus
        (BlockingController.DisableBlocking 2000000000 []
          (BlockingController.DisableBlocking 10000000000 ["kids".toList]
            BlockingController.initial).2).2 =
      { Enabled := false, DisabledGroups := [], AutoEnableInSec := 2 } ∧
    BlockingController.BlockingStatus
        (BlockingController.advance 2000000000
          (BlockingController.DisableBlocking 2000000000 []
            (BlockingController.DisableBlocking 10000000000 ["kids".toList]
              BlockingController.initial).2).2) =
      { Enabled := true, DisabledGroups := [], AutoEnableInSec := 0 } ∧
    BlockingController.advance 2000000000
        (BlockingController.DisableBlocking 2000000000 []
          (BlockingController.DisableBlocking 10000000000 ["kids".toList]
            BlockingController.initial).2).2 =
      { state := BlockingState.Enabled, timer := none, now := 2000000000 } ∧
    BlockingController.advance 10000000000
        (BlockingController.advance 2000000000
          (BlockingController.DisableBlocking 2000000000 []
            (BlockingController.DisableBlocking 10000000000 ["kids".toList]
              BlockingController.initial).2).2) =
      { state := BlockingState.Enabled, timer := none, now := 10000000000 } :=
  ⟨(DisableBlocking_supersedes BlockingController.initial 10000000000 2000000000
      ["kids".toList] [] 0 2000000000 10000000000).1,
    by decide, by decide, by decide, by decide, by decide⟩

/-! ## `Resolve`: what a selected key is -/

/-- Whatever the bound on its iterations, the inner loop only ends with a key that
is not empty, is configured, and matches the domain. -/
theorem suffixLoop_sound {ρ : Type} (mapping : GoMap ρ) :
    ∀ (fuel : Nat) (d k : Str) (u : ρ), suffixLoop mapping fuel d = some (some (k, u)) →
      k ≠ [] ∧ GoMap.get mapping k = some u ∧ Matches d k := by
  intro fuel
  induction fuel with
  | zero => intro d k u h; simp [suffixLoop] at h
  | succ fuel ih =>
    intro d k u h
    unfold suffixLoop at h
    by_cases hd : d.length > 0
    · rw [if_pos hd] at h
      cases hget : GoMap.get mapping d with
      | some u0 =>
        rw [hget] at h
        simp only [Option.some.injEq, Prod.mk.injEq] at h
        obtain ⟨rfl, rfl⟩ := h
        refine ⟨?_, hget, Or.inl rfl⟩
        intro e
        simp [e] at hd
      | none =>
        rw [hget] at h
        by_cases hi : Index d '.' ≥ 0
        · simp only [hi, if_true] at h
          obtain ⟨pre, hpre, hsplit⟩ := Index_split d '.' hi
          obtain ⟨hk, hku, hm⟩ := ih _ k u h
          refine ⟨hk, hku, ?_⟩
          rw [hsplit]
          exact (matches_split hpre).2 (Or.inr hm)
        · simp only [hi, if_false] at h
          cases h
    · rw [if_neg hd] at h
      cases h

/-- An upstream call in the trace of the question loop is the call, with the
request itself, of the upstream that the inner loop selected for a question. -/
theorem questionLoop_upstream_selected {ρ : Type} (w : Chain ρ) (mapping : GoMap ρ)
    (request : Request) :
    ∀ (questions : List Question) (trace : List (Call ρ)) (outcome : Outcome) (u : ρ)
      (request' : Request),
      questionLoop w mapping request questions = some (trace, outcome) →
      Call.upstream u request' ∈ trace →
      request' = request ∧ ∃ q ∈ questions, ∃ k,
        suffixLoop mapping ((ExtractDomain w.ToLower q).length + 1) (ExtractDomain w.ToLower q) =
          some (some (k, u)) := by
  intro questions
  induction questions with
  | nil =>
    intro trace outcome u request' h hu
    have ht : trace = [Call.next request] := by
      have := congrArg (Option.map Prod.fst) h
      exact (Option.some.inj this).symm
    rw [ht] at hu
    simp at hu
  | cons q questions ih =>
    intro trace outcome u request' h hu
    rw [questionLoop_cons] at h
    cases hrun : suffixLoop mapping ((ExtractDomain w.ToLower q).length + 1) (ExtractDomain w.ToLower q) with
    | none =>
      rw [hrun] at h
      cases h
    | some found =>
      cases found with
      | none =>
        rw [hrun] at h
        obtain ⟨hreq, q', hq', k, hk⟩ := ih trace outcome u request' h hu
        exact ⟨hreq, q', List.mem_cons_of_mem _ hq', k, hk⟩
      | some pair =>
        obtain ⟨k0, u0⟩ := pair
        rw [hrun] at h
        have ht : trace = [Call.upstream u0 request] := by
          have := congrArg (Option.map Prod.fst) h
          exact (Option.some.inj this).symm
        rw [ht, List.mem_singleton] at hu
        injection hu with hu1 hu2
        subst hu1
        exact ⟨hu2, q, List.mem_cons_self _ _, k0, hrun⟩

/-- C16: matching is label-aligned and never matches the empty key.  When `Resolve`
calls the upstream `u`, the call passes the request itself and `u` is what the
inner loop selected, under a key `k`, for a question of the request with extracted
domain `d`; and whenever the inner loop selects a key `k` for a domain `d`, `k` is
not empty, is configured, and `d = k` or `d` ends with `"." ++ k`.  So neither the
empty key nor a key that is not a label-aligned suffix of the domain is selected. -/
theorem Resolve_selects_label_aligned_key {ρ : Type} (w : Chain ρ)
    (r : ConditionalUpstreamResolver ρ) (request : Request) :
    (∀ (trace : List (Call ρ)) (outcome : Outcome) (u : ρ) (request' : Request),
      Resolve w r request = some (trace, outcome) → Call.upstream u request' ∈ trace →
      request' = request ∧ ∃ q ∈ request.Req.Question, ∃ k,
        suffixLoop r.mapping ((ExtractDomain w.ToLower q).length + 1) (ExtractDomain w.ToLower q) =
          some (some (k, u))) ∧
    (∀ (fuel : Nat) (d k : Str) (u : ρ), suffixLoop r.mapping fuel d = some (some (k, u)) →
      k ≠ [] ∧ GoMap.get r.mapping k = some u ∧ (d = k ∨ ('.' :: k) <:+ d)) ∧
    (∀ (fuel : Nat) (d k : Str) (u : ρ), (k = [] ∨ ¬ (d = k ∨ ('.' :: k) <:+ d)) →
      suffixLoop r.mapping fuel d ≠ some (some (k, u))) := by
  refine ⟨?_, ?_, ?_⟩
  · intro trace outcome u request' h hu
    unfold Resolve at h
    split_ifs at h
    · exact questionLoop_upstream_selected w r.mapping request _ trace outcome u request' h hu
    · have ht : trace = [Call.next request] := by
        have := congrArg (Option.map Prod.fst) h
        exact (Option.some.inj this).symm
      rw [ht] at hu
      simp at hu
  · intro fuel d k u h
    exact suffixLoop_sound r.mapping fuel d k u h
  · intro fuel d k u hbad h
    obtain ⟨hk, _, hm⟩ := suffixLoop_sound r.mapping fuel d k u h
    rcases hbad with e | hn
    · exact hk e
    · exact hn hm

/-- C16, scenario: with `ample.com -> A` and the empty key configured, the query
for `example.com` selects nothing and goes to the next node, although `ample.com`
and the empty string are suffixes of `example.com`; and the call of `B` for
`mail.corp.example.com` is the call of the upstream selected for that question. -/
theorem Resolve_selects_label_aligned_key_witness :
    Resolve Sample.chain Sample.cutsLabel (Sample.ask "example.com.") =
        some ([Call.next (Sample.ask "example.com.")],
          Outcome.ret (some (Sample.answer "next")) none) ∧
      "ample.com".toList <:+ ExtractDomain Sample.chain.ToLower ⟨"example.com.".toList, 1, 1⟩ ∧
      ¬ Matches (ExtractDomain Sample.chain.ToLower ⟨"example.com.".toList, 1, 1⟩) "ample.com".toList ∧
      ((Sample.ask "mail.corp.example.com.") = (Sample.ask "mail.corp.example.com.") ∧
        ∃ q ∈ (Sample.ask "mail.corp.example.com.").Req.Question, ∃ k,
          suffixLoop Sample.twoZones.mapping ((ExtractDomain Sample.chain.ToLower q).length + 1)
            (ExtractDomain Sample.chain.ToLower q) = some (some (k, "B"))) :=
  ⟨by decide, by decide, by decide,
    (Resolve_selects_label_aligned_key Sample.chain Sample.twoZones
      (Sample.ask "mail.corp.example.com.")).1
      [Call.upstream "B" (Sample.ask "mail.corp.example.com.")]
      (Outcome.ret
        (some { Res := (Sample.answer "B").Res, Reason := "CONDITIONAL".toList,
                rType := ResponseType.CONDITIONAL })
        none)
      "B" (Sample.ask "mail.corp.example.com.") (by decide) (by decide)⟩

/-! ## `GetBlockingDisable`: the group list -/

/-- With a duration that is absent or parses, the one call of `GetBlockingDisable`
passes what `strings.Split` makes of a groups parameter that is present. -/
theorem GetBlockingDisable_calls_of_groups {σ : Type} (lib : Lib)
    (control : BlockingControl σ) (s : σ) (request : GetBlockingDisableRequestObject)
    (text : Str) (duration : Duration)
    (hg : request.Params.Groups = some text)
    (hd : (request.Params.Duration = none ∧ duration = 0) ∨
      ∃ d, request.Params.Duration = some d ∧ lib.ParseDuration d = Except.ok duration) :
    (GetBlockingDisable lib control s request).calls =
      [ControlCall.DisableBlocking duration (Split text ',')] := by
  have hparsed : (match request.Params.Duration with
      | some text => lib.ParseDuration text
      | none => Except.ok 0) = Except.ok duration := by
    rcases hd with ⟨h, rfl⟩ | ⟨d, h, hp⟩
    · rw [h]
    · rw [h]
      exact hp
  unfold GetBlockingDisable
  simp only [hparsed, hg]
  cases hres : (control.DisableBlocking duration (Split text ',') s).1 with
  | none => simp
  | some e => simp

/-- C17: for a disable request whose groups parameter is present (and whose
duration is absent or parses), the group list that `GetBlockingDisable` passes to
`DisableBlocking` has at least one element, and its elements joined with `,` are
the parameter; a groups parameter that is present and empty is passed as the
one-element list `[""]`, not as the empty list. -/
theorem GetBlockingDisable_groups_never_empty {σ : Type} (lib : Lib)
    (control : BlockingControl σ) (s : σ) (request : GetBlockingDisableRequestObject)
    (text : Str) (duration : Duration)
    (hg : request.Params.Groups = some text)
    (hd : (request.Params.Duration = none ∧ duration = 0) ∨
      ∃ d, request.Params.Duration = some d ∧ lib.ParseDuration d = Except.ok duration) :
    ∃ groups, (GetBlockingDisable lib control s request).calls =
        [ControlCall.DisableBlocking duration groups] ∧
      1 ≤ groups.length ∧ [','].intercalate groups = text ∧
      (text = [] → groups = [[]]) := by
  refine ⟨Split text ',', GetBlockingDisable_calls_of_groups lib control s request text
    duration hg hd, ?_, (Split_components text).2.2, ?_⟩
  · exact List.length_pos.2 (Split_ne_nil text ',')
  · intro h
    rw [h]
    rfl

/-- C17, scenario: `groups=` (present and empty) without duration is the call
`DisableBlocking(0, [""])`. -/
theorem GetBlockingDisable_groups_never_empty_witness :
    (∃ groups, (GetBlockingDisable Sample.lib Sample.control Sample.enabled
          ⟨⟨none, some "".toList⟩⟩).calls = [ControlCall.DisableBlocking 0 groups] ∧
        1 ≤ groups.length ∧ [','].intercalate groups = "".toList ∧
        ("".toList = [] → groups = [[]])) ∧
      (GetBlockingDisable Sample.lib Sample.control Sample.enabled
          ⟨⟨none, some "".toList⟩⟩).calls = [ControlCall.DisableBlocking 0 [[]]] ∧
      (GetBlockingDisable Sample.lib Sample.control Sample.enabled
          ⟨⟨none, none⟩⟩).calls = [ControlCall.DisableBlocking 0 []] :=
  ⟨GetBlockingDisable_groups_never_empty Sample.lib Sample.control Sample.enabled
      ⟨⟨none, some "".toList⟩⟩ "".toList 0 rfl (Or.inl ⟨rfl, rfl⟩),
    by decide, by decide⟩

/-! ## The inner loop of `Resolve`: termination and the number of lookups -/

theorem count_dot_drop (d : Str) (h : 0 ≤ Index d '.') :
    List.count '.' d = List.count '.' (d.drop (Index d '.' + 1).toNat) + 1 ∧
      (d.drop (Index d '.' + 1).toNat).length < d.length := by
  obtain ⟨pre, hpre, hsplit⟩ := Index_split d '.' h
  generalize d.drop (Index d '.' + 1).toNat = rest at hsplit ⊢
  subst hsplit
  constructor
  · rw [List.count_append, List.count_cons_self, List.count_eq_zero.2 hpre]
    omega
  · simp only [List.length_append, List.length_cons]
    omega

/-- Specification of the inner loop with its lookups.  With more iterations than
the domain has dots the loop ends, with the result of `suffixLoop`; it looks up at
most one domain more than the domain has dots; every domain looked up is at most
as long as the domain, and each is strictly shorter than the one before. -/
theorem suffixLoopLookups_spec {ρ : Type} (mapping : GoMap ρ) :
    ∀ (fuel : Nat) (d : Str), List.count '.' d < fuel →
      ∃ found lookups, suffixLoopLookups mapping fuel d = some (found, lookups) ∧
        suffixLoop mapping fuel d = some found ∧
        lookups.length ≤ List.count '.' d + 1 ∧
        (∀ x ∈ lookups, x.length ≤ d.length) ∧
        List.Chain' (fun a b : Str => b.length < a.length) lookups := by
  intro fuel
  induction fuel with
  | zero => intro d h; omega
  | succ fuel ih =>
    intro d hfuel
    unfold suffixLoopLookups suffixLoop
    by_cases hd : d.length > 0
    · rw [if_pos hd, if_pos hd]
      cases hget : GoMap.get mapping d with
      | some u =>
        refine ⟨some (d, u), [d], rfl, rfl, ?_, ?_, ?_⟩
        · simp
        · intro x hx
          rw [List.mem_singleton.1 hx]
        · exact List.chain'_singleton d
      | none =>
        by_cases hi : Index d '.' ≥ 0
        · obtain ⟨hcount, hshort⟩ := count_dot_drop d hi
          obtain ⟨found, lookups, hrun, hloop, hlen, hle, hchain⟩ :=
            ih (d.drop (Index d '.' + 1).toNat) (by omega)
          refine ⟨found, d :: lookups, ?_, ?_, ?_, ?_, ?_⟩
          · simp only [hi, if_true, hrun]
          · simp only [hi, if_true, hloop]
          · simp only [List.length_cons]
            omega
          · intro x hx
            rcases List.mem_cons.1 hx with rfl | hx
            · exact Nat.le_refl _
            · exact Nat.le_of_lt (Nat.lt_of_le_of_lt (hle x hx) hshort)
          · rw [List.chain'_cons']
            refine ⟨?_, hchain⟩
            intro y hy
            exact Nat.lt_of_le_of_lt (hle y (List.mem_of_mem_head? hy)) hshort
        · refine ⟨none, [d], ?_, ?_, ?_, ?_, ?_⟩
          · simp only [hi, if_false]
          · simp only [hi, if_false]
          · simp
          · intro x hx
            rw [List.mem_singleton.1 hx]
          · exact List.chain'_singleton d
    · rw [if_neg hd, if_neg hd]
      exact ⟨none, [], rfl, rfl, by simp, by simp, List.chain'_nil⟩

/-- With enough iterations the inner loop does not depend on their bound. -/
theorem suffixLoopLookups_fuel {ρ : Type} (mapping : GoMap ρ) :
    ∀ (fuel fuel' : Nat) (d : Str), List.count '.' d < fuel → List.count '.' d < fuel' →
      suffixLoopLookups mapping fuel d = suffixLoopLookups mapping fuel' d := by
  intro fuel
  induction fuel with
  | zero => intro fuel' d h; omega
  | succ fuel ih =>
    intro fuel' d h h'
    cases fuel' with
    | zero => omega
    | succ fuel' =>
      unfold suffixLoopLookups
      by_cases hd : d.length > 0
      · rw [if_pos hd, if_pos hd]
        cases hget : GoMap.get mapping d with
        | some u => rfl
        | none =>
          by_cases hi : Index d '.' ≥ 0
          · obtain ⟨hcount, _⟩ := count_dot_drop d hi
            simp only [hi, if_true]
            rw [ih fuel' (d.drop (Index d '.' + 1).toNat) (by omega) (by omega)]
          · simp only [hi, if_false]
      · rw [if_neg hd, if_neg hd]

/-- C18: the inner loop of `Resolve` terminates for every domain string.  With the
`len(domain) + 1` iterations that `Resolve` gives it, and with any number of
iterations above the number `m` of dots of the domain, the loop ends, with the same
result and the same lookups; it makes at most `m + 1` lookups in the mapping; and
each domain looked up is strictly shorter than the one before. -/
theorem suffixLoop_terminates {ρ : Type} (mapping : GoMap ρ) (domain : Str) :
    ∃ found lookups,
      suffixLoopLookups mapping (domain.length + 1) domain = some (found, lookups) ∧
      suffixLoop mapping (domain.length + 1) domain = some found ∧
      lookups.length ≤ List.count '.' domain + 1 ∧
      List.Chain' (fun a b : Str => b.length < a.length) lookups ∧
      (∀ fuel, List.count '.' domain < fuel →
        suffixLoopLookups mapping fuel domain = some (found, lookups)) := by
  have hfuel : List.count '.' domain < domain.length + 1 :=
    Nat.lt_succ_of_le (List.count_le_length _ _)
  obtain ⟨found, lookups, hrun, hloop, hlen, _, hchain⟩ :=
    suffixLoopLookups_spec mapping (domain.length + 1) domain hfuel
  refine ⟨found, lookups, hrun, hloop, hlen, hchain, ?_⟩
  intro fuel h
  rw [suffixLoopLookups_fuel mapping fuel (domain.length + 1) domain h hfuel, hrun]

/-- C18, scenario: for `mail.corp.example.net`, with three dots, against the two
zones of `example.com`, the loop makes the four lookups `mail.corp.example.net`,
`corp.example.net`, `example.net`, `net` and ends without a match; four iterations
are enough. -/
theorem suffixLoop_terminates_witness :
    (∃ found lookups,
      suffixLoopLookups Sample.twoZones.mapping ("mail.corp.example.net".toList.length + 1)
        "mail.corp.example.net".toList = some (found, lookups) ∧
      suffixLoop Sample.twoZones.mapping ("mail.corp.example.net".toList.length + 1)
        "mail.corp.example.net".toList = some found ∧
      lookups.length ≤ List.count '.' "mail.corp.example.net".toList + 1 ∧
      List.Chain' (fun a b : Str => b.length < a.length) lookups ∧
      (∀ fuel, List.count '.' "mail.corp.example.net".toList < fuel →
        suffixLoopLookups Sample.twoZones.mapping fuel "mail.corp.example.net".toList =
          some (found, lookups))) ∧
    suffixLoopLookups Sample.twoZones.mapping ("mail.corp.example.net".toList.length + 1)
        "mail.corp.example.net".toList =
      some (none, ["mail.corp.example.net".toList, "corp.example.net".toList,
        "example.net".toList, "net".toList]) ∧
    List.count '.' "mail.corp.example.net".toList = 3 ∧
    suffixLoopLookups Sample.twoZones.mapping 4 "mail.corp.example.net".toList =
      some (none, ["mail.corp.example.net".toList, "corp.example.net".toList,
        "example.net".toList, "net".toList]) ∧
    suffixLoopLookups Sample.twoZones.mapping 22 "a.".toList = some (none, ["a.".toList]) :=
  ⟨suffixLoop_terminates Sample.twoZones.mapping "mail.corp.example.net".toList,
    by decide, by decide, by decide, by decide⟩

end Blocky

